import Mathlib

/-!
# Block filtering (`filtering/filter.go`)

A shallow embedding of `BlockFilter` and of its in-place block transform,
followed by the properties of the transform.

Conventions of the embedding.

* Go slices are lists; a `nil` slice is `[]`.
* `uint32` values are natural numbers kept below `2^32` by an explicit
  `% 2^32` at every increment and conversion.
* The transform mutates the objects behind the pointers stored in
  `block.UnfilteredTransactionTraces`.  A pointer to a transaction trace is
  modelled by the position of that trace in `UnfilteredTransactionTraces`
  (the pointers of a decoded block are distinct and non-nil), and the objects
  themselves by the list of their states.  The slice `filteredTrxTrace` of the
  source is therefore a list of positions, and the transaction traces a reader
  finds in `block.FilteredTransactionTraces` are those positions looked up in
  the final object states.
* The declarations of `pbcodec.Block`, `pbcodec.TransactionTrace`,
  `pbcodec.ActionTrace`, `CELFilter` and `bstream.Block` are outside the
  translated file; the fields and methods the file uses are modelled below.
-/

namespace Filtering

/-! ## Data model -/

/-- Conversion to `uint32`: the value modulo `2^32`. -/
def uint32 (n : Nat) : Nat := n % 2 ^ 32

/-- Modelled from the spec: `pbcodec.ActionTrace` is declared outside the
translated file.  The spec (section 3) gives an action record identity and
content fields, a mutable `matched` flag and a derived input-action property;
the example scenario of section 8 uses the content fields `account`, `name`
and `input`. -/
structure ActionTrace where
  Account : String
  Name : String
  Input : Bool
  FilteringMatched : Bool
deriving DecidableEq, Repr

/-- Modelled from the spec: `ActionTrace.IsInput()`, true if the action was
directly requested rather than produced as a side effect. -/
def ActionTrace.IsInput (a : ActionTrace) : Bool := a.Input

/-- The fields of `pbcodec.TransactionTrace` that `filter.go` reads.
`FailedDtrxTrace` is a nullable pointer to a `TransactionTrace`: the source
passes it to `shouldProcess`, whose parameter is a `*pbcodec.TransactionTrace`,
and reads its `ActionTraces` and `Scheduled`. -/
inductive TransactionTrace where
  | mk (ActionTraces : List ActionTrace) (FailedDtrxTrace : Option TransactionTrace)
      (Scheduled : Bool) : TransactionTrace

/-- Field `ActionTraces`. -/
def TransactionTrace.ActionTraces : TransactionTrace → List ActionTrace
  | .mk a _ _ => a

/-- Field `FailedDtrxTrace` (`none` is the nil pointer). -/
def TransactionTrace.FailedDtrxTrace : TransactionTrace → Option TransactionTrace
  | .mk _ d _ => d

/-- Field `Scheduled`. -/
def TransactionTrace.Scheduled : TransactionTrace → Bool
  | .mk _ _ s => s

/-- The value `actionTraceActivation{trace: ..., trxScheduled: ...}` built by
`shouldProcess`. -/
structure actionTraceActivation where
  trace : ActionTrace
  trxScheduled : Bool

/-- Modelled from the spec: `CELFilter` (the compiled predicate program) is
declared outside the translated file.  Section 6 of the spec gives a program a
no-op classification and a total evaluation on an evaluation context;
`filter.go` reads its source text `code`.  The evaluation is left arbitrary. -/
structure CELFilter where
  code : String
  noop : Bool
  eval : actionTraceActivation → Bool

/-- Modelled from the spec: `CELFilter.IsNoop()`. -/
def CELFilter.IsNoop (c : CELFilter) : Bool := c.noop

/-- Modelled from the spec: `CELFilter.match(activation)`. -/
def CELFilter.match_ (c : CELFilter) (activation : actionTraceActivation) : Bool :=
  c.eval activation

/-- The struct `BlockFilter`. -/
structure BlockFilter where
  IncludeProgram : CELFilter
  ExcludeProgram : CELFilter

/-- The fields of `pbcodec.Block` that `filter.go` reads or writes. -/
structure Block where
  UnfilteredTransactionTraces : List TransactionTrace
  FilteredTransactionTraces : List TransactionTrace
  FilteringApplied : Bool
  FilteringIncludeFilterExpr : String
  FilteringExcludeFilterExpr : String
  FilteredTransactionTraceCount : Nat
  FilteredExecutedInputActionCount : Nat
  FilteredExecutedTotalActionCount : Nat

/-! ## `shouldProcess` -/

/-- The method `BlockFilter.shouldProcess`. -/
def shouldProcess (f : BlockFilter) (trxTrace : TransactionTrace) (actTrace : ActionTrace) :
    Bool :=
  let activation : actionTraceActivation :=
    { trace := actTrace, trxScheduled := trxTrace.Scheduled }
  if !f.IncludeProgram.match_ activation then
    false
  else if f.ExcludeProgram.match_ activation then
    false
  else
    true

/-! ## `transfromInPlace` -/

/-- The local variables of `transfromInPlace` that the loops update.
`filteredTrxTrace` holds pointers, that is positions in
`block.UnfilteredTransactionTraces`. -/
structure LoopState where
  filteredTrxTrace : List Nat
  filteredExecutedInputActionCount : Nat
  filteredExecutedTotalActionCount : Nat
  trxTraceAddedToFiltered : Bool

/-- The loop `for _, actTrace := range trxTrace.ActionTraces` (lines 59-74), run
on the not yet visited actions.  `ptr` is the pointer `trxTrace`.  Returns the
visited actions in their state after the loop, and the updated locals. -/
def directActionLoop (f : BlockFilter) (ptr : Nat) (trxTrace : TransactionTrace) :
    List ActionTrace → LoopState → List ActionTrace × LoopState
  | [], st => ([], st)
  | actTrace :: rest, st =>
    if !shouldProcess f trxTrace actTrace then
      let r := directActionLoop f ptr trxTrace rest st
      (actTrace :: r.1, r.2)
    else
      let actTrace1 : ActionTrace := { actTrace with FilteringMatched := true }
      let st1 : LoopState :=
        { st with filteredExecutedTotalActionCount :=
                    uint32 (st.filteredExecutedTotalActionCount + 1) }
      let st2 : LoopState :=
        if actTrace1.IsInput then
          { st1 with filteredExecutedInputActionCount :=
                       uint32 (st1.filteredExecutedInputActionCount + 1) }
        else st1
      let st3 : LoopState :=
        if !st2.trxTraceAddedToFiltered then
          { st2 with filteredTrxTrace := st2.filteredTrxTrace ++ [ptr],
                     trxTraceAddedToFiltered := true }
        else st2
      let r := directActionLoop f ptr trxTrace rest st3
      (actTrace1 :: r.1, r.2)

/-- The loop `for _, actTrace := range trxTrace.FailedDtrxTrace.ActionTraces`
(lines 77-87).  `ptr` is the pointer `trxTrace` of the enclosing transaction,
`failed` the object `trxTrace.FailedDtrxTrace`, which is what the source hands
to `shouldProcess`. -/
def failedActionLoop (f : BlockFilter) (ptr : Nat) (failed : TransactionTrace) :
    List ActionTrace → LoopState → List ActionTrace × LoopState
  | [], st => ([], st)
  | actTrace :: rest, st =>
    if !shouldProcess f failed actTrace then
      let r := failedActionLoop f ptr failed rest st
      (actTrace :: r.1, r.2)
    else
      let actTrace1 : ActionTrace := { actTrace with FilteringMatched := true }
      let st1 : LoopState :=
        if !st.trxTraceAddedToFiltered then
          { st with filteredTrxTrace := st.filteredTrxTrace ++ [ptr],
                    trxTraceAddedToFiltered := true }
        else st
      let r := failedActionLoop f ptr failed rest st1
      (actTrace1 :: r.1, r.2)

/-- One iteration of the loop over `block.UnfilteredTransactionTraces`
(lines 58-88) for the transaction trace `trxTrace` stored at position `ptr`.
Returns the state of that object after the iteration and the updated locals. -/
def trxIteration (f : BlockFilter) (ptr : Nat) (trxTrace : TransactionTrace)
    (st : LoopState) : TransactionTrace × LoopState :=
  let st0 : LoopState := { st with trxTraceAddedToFiltered := false }
  let direct := directActionLoop f ptr trxTrace trxTrace.ActionTraces st0
  match trxTrace.FailedDtrxTrace with
  | none => (.mk direct.1 none trxTrace.Scheduled, direct.2)
  | some failed =>
    let fl := failedActionLoop f ptr failed failed.ActionTraces direct.2
    (.mk direct.1 (some (.mk fl.1 failed.FailedDtrxTrace failed.Scheduled)) trxTrace.Scheduled,
      fl.2)

/-- The loop `for _, trxTrace := range block.UnfilteredTransactionTraces`
(lines 57-89), run on the not yet visited transaction traces, the first of
which is at position `ptr`. -/
def trxLoop (f : BlockFilter) :
    Nat → List TransactionTrace → LoopState → List TransactionTrace × LoopState
  | _, [], st => ([], st)
  | ptr, trxTrace :: rest, st =>
    let it := trxIteration f ptr trxTrace st
    let r := trxLoop f (ptr + 1) rest it.2
    (it.1 :: r.1, r.2)

/-- The locals of `transfromInPlace` at line 53-55. -/
def initialState : LoopState :=
  { filteredTrxTrace := [],
    filteredExecutedInputActionCount := uint32 0,
    filteredExecutedTotalActionCount := uint32 0,
    trxTraceAddedToFiltered := false }

/-- The whole walk of `transfromInPlace` (lines 53-89) on a block: the states of
the transaction trace objects after the walk, in the order of
`block.UnfilteredTransactionTraces`, and the final locals. -/
def walk (f : BlockFilter) (block : Block) : List TransactionTrace × LoopState :=
  trxLoop f 0 block.UnfilteredTransactionTraces initialState

/-- The objects after the walk, by position in the original sequence. -/
def walkedTraces (f : BlockFilter) (block : Block) : List TransactionTrace :=
  (walk f block).1

/-- The slice `filteredTrxTrace` at line 91, as pointers: the positions, in the
original sequence, of the retained transaction traces. -/
def retainedPositions (f : BlockFilter) (block : Block) : List Nat :=
  (walk f block).2.filteredTrxTrace

/-- Reading a slice of pointers: each position is looked up in the object states. -/
def deref (objects : List TransactionTrace) (ptrs : List Nat) : List TransactionTrace :=
  ptrs.filterMap (fun p => objects[p]?)

/-- The method `BlockFilter.transfromInPlace` (lines 48-96). -/
def transfromInPlace (f : BlockFilter) (block : Block) : Block :=
  let w := walk f block
  let filteredTrxTrace := deref w.1 w.2.filteredTrxTrace
  { UnfilteredTransactionTraces := [],
    FilteredTransactionTraces := filteredTrxTrace,
    FilteringApplied := true,
    FilteringIncludeFilterExpr := f.IncludeProgram.code,
    FilteringExcludeFilterExpr := f.ExcludeProgram.code,
    FilteredTransactionTraceCount := uint32 filteredTrxTrace.length,
    FilteredExecutedInputActionCount := w.2.filteredExecutedInputActionCount,
    FilteredExecutedTotalActionCount := w.2.filteredExecutedTotalActionCount }

/-! ## `TransformInPlace` -/

/-- Modelled from the spec: the result of `bstream.Block.ToNative()`, an
`interface{}` holding the decoded native block.  `eosBlock` is a
`*pbcodec.Block`; `other` is any value for which the type assertion
`.(*pbcodec.Block)` fails. -/
inductive NativeBlock where
  | eosBlock (block : Block) : NativeBlock
  | other : NativeBlock

/-- Modelled from the spec: `bstream.Block`, declared outside the translated
file: an opaque handle with a decode operation.  `native` is what `ToNative()`
returns (and what later calls return, as the comment on `TransformInPlace`
says); `toNativeCalls` records how many times `ToNative()` has been called on
the handle. -/
structure BstreamBlock where
  native : NativeBlock
  toNativeCalls : Nat

/-- How a call of `TransformInPlace` ends: it returns an `error` value (`none`
is `nil`) leaving the handle in a new state, or the type assertion panics. -/
inductive Outcome where
  | returned (err : Option String) (blk : BstreamBlock) : Outcome
  | panicked : Outcome

/-- The method `BlockFilter.TransformInPlace` (lines 38-46). -/
def TransformInPlace (f : BlockFilter) (blk : BstreamBlock) : Outcome :=
  if f.IncludeProgram.IsNoop && f.ExcludeProgram.IsNoop then
    .returned none blk
  else
    match blk.native with
    | .eosBlock block =>
      .returned none
        { native := .eosBlock (transfromInPlace f block),
          toNativeCalls := blk.toNativeCalls + 1 }
    | .other => .panicked

/-! ## `NewBlockFilter` -/

/-- A Go `error` value: one with a message and nothing wrapped (such as a
diagnostic of the expression compiler), or the value built by `fmt.Errorf` with
a `%w` verb, which has a message of its own and wraps another error. -/
inductive GoError where
  | plain (msg : String) : GoError
  | wrapError (msg : String) (err : GoError) : GoError
deriving DecidableEq, Repr

/-- The method `Error()`: the message of the error. -/
def GoError.Error : GoError → String
  | .plain msg => msg
  | .wrapError msg _ => msg

/-- The method `Unwrap()` of a wrapping error; `none` when nothing is wrapped. -/
def GoError.Unwrap : GoError → Option GoError
  | .plain _ => none
  | .wrapError _ err => some err

/-- The call `fmt.Errorf(lead + "%w", err)`: the message is `lead` followed by
the message of `err`, and `err` is wrapped. -/
def Errorf (lead : String) (err : GoError) : GoError :=
  .wrapError (lead ++ err.Error) err

/-- The function `NewBlockFilter` (lines 15-30).  The two constructors
`newCELFilterInclude` and `newCELFilterExclude` are declared outside the
translated file and are parameters; each returns a program or an error.  The
result is the pair `(*BlockFilter, error)`, `none` standing for `nil`. -/
def NewBlockFilter (newCELFilterInclude newCELFilterExclude : String → Except GoError CELFilter)
    (includeProgramCode excludeProgramCode : String) : Option BlockFilter × Option GoError :=
  match newCELFilterInclude includeProgramCode with
  | .error err => (none, some (Errorf "include filter: " err))
  | .ok includeFilter =>
    match newCELFilterExclude excludeProgramCode with
    | .error err => (none, some (Errorf "exclude filter: " err))
    | .ok excludeFilter =>
      (some { IncludeProgram := includeFilter, ExcludeProgram := excludeFilter }, none)

/-! ## Auxiliary definitions used to state and prove the properties -/

/-- The combined decision of the spec (section 4.2), include and not exclude,
on the context pairing the action with a scheduled flag. -/
def combinedDecision (f : BlockFilter) (act : ActionTrace) (scheduled : Bool) : Bool :=
  f.IncludeProgram.match_ { trace := act, trxScheduled := scheduled } &&
    !f.ExcludeProgram.match_ { trace := act, trxScheduled := scheduled }

/-- The assignment `actTrace.FilteringMatched = true`, done when `p` holds. -/
def markIf (p : ActionTrace → Bool) (a : ActionTrace) : ActionTrace :=
  if p a then { a with FilteringMatched := true } else a

/-- The list with one pointer when `b` holds, the empty list otherwise. -/
def ptrIf (b : Bool) (ptr : Nat) : List Nat := if b then [ptr] else []

/-- Whether some action of the failed deferred transaction trace of `trxTrace`
passes `shouldProcess`, called as the source calls it (line 78). -/
def failedMatch (f : BlockFilter) (trxTrace : TransactionTrace) : Bool :=
  match trxTrace.FailedDtrxTrace with
  | none => false
  | some failed => failed.ActionTraces.any (shouldProcess f failed)

/-- Whether some direct action of `trxTrace` passes `shouldProcess` (line 60). -/
def directMatch (f : BlockFilter) (trxTrace : TransactionTrace) : Bool :=
  trxTrace.ActionTraces.any (shouldProcess f trxTrace)

/-- The state of a failed deferred transaction trace after its actions were walked. -/
def markFailed (f : BlockFilter) (failed : TransactionTrace) : TransactionTrace :=
  .mk (failed.ActionTraces.map (markIf (shouldProcess f failed))) failed.FailedDtrxTrace
    failed.Scheduled

/-- The state of a transaction trace after its iteration of the walk. -/
def markTrx (f : BlockFilter) (trxTrace : TransactionTrace) : TransactionTrace :=
  .mk (trxTrace.ActionTraces.map (markIf (shouldProcess f trxTrace)))
    (trxTrace.FailedDtrxTrace.map (markFailed f)) trxTrace.Scheduled

/-- Number of direct actions of `trxTrace` that pass `shouldProcess`. -/
def directCount (f : BlockFilter) (trxTrace : TransactionTrace) : Nat :=
  trxTrace.ActionTraces.countP (shouldProcess f trxTrace)

/-- Number of direct input actions of `trxTrace` that pass `shouldProcess`. -/
def directInputCount (f : BlockFilter) (trxTrace : TransactionTrace) : Nat :=
  trxTrace.ActionTraces.countP (fun a => shouldProcess f trxTrace a && a.IsInput)

/-- Positions, counted from `ptr`, of the transaction traces of the list that
have a direct or failed-deferred action passing `shouldProcess`. -/
def keptPositions (f : BlockFilter) : Nat → List TransactionTrace → List Nat
  | _, [] => []
  | ptr, trxTrace :: rest =>
    ptrIf (directMatch f trxTrace || failedMatch f trxTrace) ptr ++
      keptPositions f (ptr + 1) rest

/-- Whether the walk retains `trxTrace`: one of the two guards of lines 60 and 78
lets an action through. -/
def retains (f : BlockFilter) (trxTrace : TransactionTrace) : Bool :=
  directMatch f trxTrace || failedMatch f trxTrace

/-- Number of direct actions, over the transaction traces of `l`, whose
`FilteringMatched` flag is set. -/
def matchedDirectCount (l : List TransactionTrace) : Nat :=
  (l.map (fun t => t.ActionTraces.countP (fun a => a.FilteringMatched))).sum

/-- Number of direct actions, over the transaction traces of `l`, whose
`FilteringMatched` flag is set and for which `IsInput()` holds. -/
def matchedDirectInputCount (l : List TransactionTrace) : Nat :=
  (l.map (fun t => t.ActionTraces.countP (fun a => a.FilteringMatched && a.IsInput))).sum

/-- A transaction trace with the `FilteringMatched` flag cleared on its direct
actions and on the actions of its failed deferred trace: what the walk never
changes. -/
def clearMatched (t : TransactionTrace) : TransactionTrace :=
  .mk (t.ActionTraces.map (fun a => { a with FilteringMatched := false }))
    (t.FailedDtrxTrace.map (fun failed =>
      .mk (failed.ActionTraces.map (fun a => { a with FilteringMatched := false }))
        failed.FailedDtrxTrace failed.Scheduled))
    t.Scheduled

/-! ## Example inputs -/

/-- An action `eosio.token/transfer`, requested directly, not yet matched. -/
def transferAction : ActionTrace :=
  { Account := "eosio.token", Name := "transfer", Input := true, FilteringMatched := false }

/-- A failed deferred transaction trace, itself scheduled, with one action. -/
def failedScheduled : TransactionTrace := .mk [transferAction] none true

/-- A transaction trace that is not scheduled, has no direct action and carries
the failed deferred trace `failedScheduled`, whose `Scheduled` flag differs. -/
def unscheduledWithFailed : TransactionTrace := .mk [] (some failedScheduled) false

/-- A block holding the single transaction trace `unscheduledWithFailed`. -/
def blockWithFailed : Block :=
  { UnfilteredTransactionTraces := [unscheduledWithFailed],
    FilteredTransactionTraces := [],
    FilteringApplied := false,
    FilteringIncludeFilterExpr := "",
    FilteringExcludeFilterExpr := "",
    FilteredTransactionTraceCount := 0,
    FilteredExecutedInputActionCount := 0,
    FilteredExecutedTotalActionCount := 0 }

/-- The no-op exclude program: matches no action. -/
def noopExclude : CELFilter := { code := "", noop := true, eval := fun _ => false }

/-- The no-op include program: matches every action. -/
def noopInclude : CELFilter := { code := "", noop := true, eval := fun _ => true }

/-- A filter whose include program is the expression `scheduled` (it matches when
the scheduled flag of the evaluation context is set) and whose exclude program
is the no-op. -/
def scheduledFilter : BlockFilter :=
  { IncludeProgram := { code := "scheduled", noop := false, eval := fun a => a.trxScheduled },
    ExcludeProgram := noopExclude }

/-- The filter built from two empty expressions: both programs are no-ops. -/
def noopFilter : BlockFilter :=
  { IncludeProgram := noopInclude, ExcludeProgram := noopExclude }

/-- A handle on `blockWithFailed` on which `ToNative()` has not been called. -/
def handleWithFailed : BstreamBlock :=
  { native := .eosBlock blockWithFailed, toNativeCalls := 0 }

/-- A filter whose include program is the expression `true`, compiled (not a
no-op), and whose exclude program is the no-op: every action passes. -/
def includeAllFilter : BlockFilter :=
  { IncludeProgram := { code := "true", noop := false, eval := fun _ => true },
    ExcludeProgram := noopExclude }

/-- A block with a single transaction trace that has `n` direct actions, all
unmatched, and no failed deferred trace. -/
def manyActionsBlock (n : Nat) : Block :=
  { UnfilteredTransactionTraces := [.mk (List.replicate n transferAction) none false],
    FilteredTransactionTraces := [],
    FilteringApplied := false,
    FilteringIncludeFilterExpr := "",
    FilteringExcludeFilterExpr := "",
    FilteredTransactionTraceCount := 0,
    FilteredExecutedInputActionCount := 0,
    FilteredExecutedTotalActionCount := 0 }

/-- A block with `n` copies of the transaction trace `unscheduledWithFailed`,
which has no direct action and a failed deferred trace with one action. -/
def manyFailedBlock (n : Nat) : Block :=
  { UnfilteredTransactionTraces := List.replicate n unscheduledWithFailed,
    FilteredTransactionTraces := [],
    FilteringApplied := false,
    FilteringIncludeFilterExpr := "",
    FilteringExcludeFilterExpr := "",
    FilteredTransactionTraceCount := 0,
    FilteredExecutedInputActionCount := 0,
    FilteredExecutedTotalActionCount := 0 }

/-- The block `blockWithFailed` without the failed deferred trace of its
transaction. -/
def blockWithoutFailed : Block :=
  { blockWithFailed with UnfilteredTransactionTraces := [.mk [] none false] }

/-- An action `eosio.token/issue`, not an input action, not yet matched. -/
def issueAction : ActionTrace :=
  { Account := "eosio.token", Name := "issue", Input := false, FilteringMatched := false }

/-- An action `spammer/transfer`, requested directly, not yet matched. -/
def spammerTransfer : ActionTrace :=
  { Account := "spammer", Name := "transfer", Input := true, FilteringMatched := false }

/-- Transaction `T1` of the example scenario of the spec (section 8). -/
def exampleT1 : TransactionTrace := .mk [transferAction, issueAction] none false

/-- Transaction `T2` of the example scenario. -/
def exampleT2 : TransactionTrace := .mk [spammerTransfer] none false

/-- Transaction `T3` of the example scenario: scheduled, no direct action, one
failed deferred action.  The scenario does not give the failed deferred trace a
`Scheduled` flag of its own; it is the parameter `s`. -/
def exampleT3 (s : Bool) : TransactionTrace :=
  .mk [] (some (.mk [transferAction] none s)) true

/-- The block of the example scenario, before filtering. -/
def exampleBlock (s : Bool) : Block :=
  { UnfilteredTransactionTraces := [exampleT1, exampleT2, exampleT3 s],
    FilteredTransactionTraces := [],
    FilteringApplied := false,
    FilteringIncludeFilterExpr := "",
    FilteringExcludeFilterExpr := "",
    FilteredTransactionTraceCount := 0,
    FilteredExecutedInputActionCount := 0,
    FilteredExecutedTotalActionCount := 0 }

/-- The filter of the example scenario: include is `action name equals
transfer`, exclude is `action account equals spammer`, both compiled. -/
def exampleFilter : BlockFilter :=
  { IncludeProgram :=
      { code := "action == 'transfer'", noop := false,
        eval := fun c => c.trace.Name == "transfer" },
    ExcludeProgram :=
      { code := "account == 'spammer'", noop := false,
        eval := fun c => c.trace.Account == "spammer" } }

/-- A block with one transaction whose single direct action is already marked
as matched before the transform. -/
def premarkedBlock : Block :=
  { blockWithFailed with
    UnfilteredTransactionTraces :=
      [.mk [{ transferAction with FilteringMatched := true }] none false] }

/-- A compiler that rejects every expression with the diagnostic `syntax error`. -/
def rejectAll : String → Except GoError CELFilter :=
  fun _ => .error (.plain "syntax error")

/-- A compiler that accepts every expression, producing the no-op exclude
program. -/
def acceptAll : String → Except GoError CELFilter :=
  fun _ => .ok noopExclude

/-! ## Basic lemmas -/

@[simp] theorem TransactionTrace.ActionTraces_mk (a : List ActionTrace)
    (d : Option TransactionTrace) (s : Bool) : (TransactionTrace.mk a d s).ActionTraces = a :=
  rfl

@[simp] theorem TransactionTrace.FailedDtrxTrace_mk (a : List ActionTrace)
    (d : Option TransactionTrace) (s : Bool) :
    (TransactionTrace.mk a d s).FailedDtrxTrace = d :=
  rfl

@[simp] theorem TransactionTrace.Scheduled_mk (a : List ActionTrace)
    (d : Option TransactionTrace) (s : Bool) : (TransactionTrace.mk a d s).Scheduled = s :=
  rfl

theorem uint32_lt (n : Nat) : uint32 n < 2 ^ 32 := by
  unfold uint32; omega

theorem uint32_of_lt {n : Nat} (h : n < 2 ^ 32) : uint32 n = n := by
  unfold uint32; omega

theorem uint32_add_uint32 (a b : Nat) : uint32 (uint32 a + b) = uint32 (a + b) := by
  unfold uint32; omega

/-! ## Characterisation of the loops -/

theorem directActionLoop_eq (f : BlockFilter) (ptr : Nat) (trxTrace : TransactionTrace)
    (acts : List ActionTrace) (st : LoopState)
    (hi : st.filteredExecutedInputActionCount < 2 ^ 32)
    (ht : st.filteredExecutedTotalActionCount < 2 ^ 32) :
    directActionLoop f ptr trxTrace acts st =
      (acts.map (markIf (shouldProcess f trxTrace)),
        { filteredTrxTrace := st.filteredTrxTrace ++
            ptrIf (!st.trxTraceAddedToFiltered && acts.any (shouldProcess f trxTrace)) ptr,
          filteredExecutedInputActionCount :=
            uint32 (st.filteredExecutedInputActionCount +
              acts.countP (fun a => shouldProcess f trxTrace a && a.IsInput)),
          filteredExecutedTotalActionCount :=
            uint32 (st.filteredExecutedTotalActionCount +
              acts.countP (shouldProcess f trxTrace)),
          trxTraceAddedToFiltered :=
            st.trxTraceAddedToFiltered || acts.any (shouldProcess f trxTrace) }) := by
  induction acts generalizing st with
  | nil =>
    simp [directActionLoop, ptrIf, uint32_of_lt hi, uint32_of_lt ht]
  | cons a rest ih =>
    by_cases hp : shouldProcess f trxTrace a = true
    · by_cases hin : a.Input = true <;> by_cases hadd : st.trxTraceAddedToFiltered = true
      all_goals
        simp only [directActionLoop, hp, Bool.not_true, Bool.false_eq_true, if_false,
          ActionTrace.IsInput, hin, hadd, if_true, Bool.not_false]
        rw [ih _ (by first | exact uint32_lt _ | exact hi) (uint32_lt _)]
        simp [markIf, hp, ptrIf, hin, hadd, ActionTrace.IsInput, uint32_add_uint32,
          List.countP_cons, Nat.add_assoc, Nat.add_comm]
        try constructor
        all_goals (unfold uint32; omega)
    · simp only [Bool.not_eq_true] at hp
      simp only [directActionLoop, hp, Bool.not_false, if_true]
      rw [ih st hi ht]
      simp [markIf, hp, List.countP_cons]

theorem failedActionLoop_eq (f : BlockFilter) (ptr : Nat) (failed : TransactionTrace)
    (acts : List ActionTrace) (st : LoopState) :
    failedActionLoop f ptr failed acts st =
      (acts.map (markIf (shouldProcess f failed)),
        { filteredTrxTrace := st.filteredTrxTrace ++
            ptrIf (!st.trxTraceAddedToFiltered && acts.any (shouldProcess f failed)) ptr,
          filteredExecutedInputActionCount := st.filteredExecutedInputActionCount,
          filteredExecutedTotalActionCount := st.filteredExecutedTotalActionCount,
          trxTraceAddedToFiltered :=
            st.trxTraceAddedToFiltered || acts.any (shouldProcess f failed) }) := by
  induction acts generalizing st with
  | nil => simp [failedActionLoop, ptrIf]
  | cons a rest ih =>
    by_cases hp : shouldProcess f failed a = true
    · by_cases hadd : st.trxTraceAddedToFiltered = true
      all_goals
        simp only [failedActionLoop, hp, Bool.not_true, Bool.false_eq_true, if_false,
          hadd, if_true, Bool.not_false]
        rw [ih]
        simp [markIf, hp, ptrIf, hadd]
    · simp only [Bool.not_eq_true] at hp
      simp only [failedActionLoop, hp, Bool.not_false, if_true]
      rw [ih st]
      simp [markIf, hp]

theorem trxIteration_eq (f : BlockFilter) (ptr : Nat) (trxTrace : TransactionTrace)
    (st : LoopState)
    (hi : st.filteredExecutedInputActionCount < 2 ^ 32)
    (ht : st.filteredExecutedTotalActionCount < 2 ^ 32) :
    trxIteration f ptr trxTrace st =
      (markTrx f trxTrace,
        { filteredTrxTrace := st.filteredTrxTrace ++
            ptrIf (directMatch f trxTrace || failedMatch f trxTrace) ptr,
          filteredExecutedInputActionCount :=
            uint32 (st.filteredExecutedInputActionCount + directInputCount f trxTrace),
          filteredExecutedTotalActionCount :=
            uint32 (st.filteredExecutedTotalActionCount + directCount f trxTrace),
          trxTraceAddedToFiltered := directMatch f trxTrace || failedMatch f trxTrace }) := by
  have hd := directActionLoop_eq f ptr trxTrace trxTrace.ActionTraces
    { st with trxTraceAddedToFiltered := false } hi ht
  unfold trxIteration
  simp only []
  rw [hd]
  cases hfd : trxTrace.FailedDtrxTrace with
  | none =>
    simp [markTrx, hfd, failedMatch, directMatch, directCount, directInputCount]
  | some failed =>
    simp only [failedActionLoop_eq]
    cases hd : trxTrace.ActionTraces.any (shouldProcess f trxTrace) <;>
      cases hfm : failed.ActionTraces.any (shouldProcess f failed) <;>
      simp [markTrx, markFailed, hfd, failedMatch, directMatch, directCount, directInputCount,
        hd, hfm, ptrIf]

theorem trxLoop_eq (f : BlockFilter) (ptr : Nat) (l : List TransactionTrace) (st : LoopState)
    (hi : st.filteredExecutedInputActionCount < 2 ^ 32)
    (ht : st.filteredExecutedTotalActionCount < 2 ^ 32) :
    (trxLoop f ptr l st).1 = l.map (markTrx f) ∧
    (trxLoop f ptr l st).2.filteredTrxTrace = st.filteredTrxTrace ++ keptPositions f ptr l ∧
    (trxLoop f ptr l st).2.filteredExecutedInputActionCount =
      uint32 (st.filteredExecutedInputActionCount + (l.map (directInputCount f)).sum) ∧
    (trxLoop f ptr l st).2.filteredExecutedTotalActionCount =
      uint32 (st.filteredExecutedTotalActionCount + (l.map (directCount f)).sum) := by
  induction l generalizing ptr st with
  | nil => simp [trxLoop, keptPositions, uint32_of_lt hi, uint32_of_lt ht]
  | cons t rest ih =>
    simp only [trxLoop]
    rw [trxIteration_eq f ptr t st hi ht]
    obtain ⟨h1, h2, h3, h4⟩ := ih (ptr + 1)
      { filteredTrxTrace := st.filteredTrxTrace ++
          ptrIf (directMatch f t || failedMatch f t) ptr,
        filteredExecutedInputActionCount :=
          uint32 (st.filteredExecutedInputActionCount + directInputCount f t),
        filteredExecutedTotalActionCount :=
          uint32 (st.filteredExecutedTotalActionCount + directCount f t),
        trxTraceAddedToFiltered := directMatch f t || failedMatch f t }
      (uint32_lt _) (uint32_lt _)
    simp only [] at h1 h2 h3 h4 ⊢
    refine ⟨by rw [h1]; rfl, ?_, ?_, ?_⟩
    · rw [h2]; simp [keptPositions]
    · rw [h3, uint32_add_uint32]; simp [Nat.add_assoc]
    · rw [h4, uint32_add_uint32]; simp [Nat.add_assoc]

/-! ## Retained positions -/

theorem mem_keptPositions (f : BlockFilter) (ptr : Nat) (l : List TransactionTrace) (p : Nat) :
    p ∈ keptPositions f ptr l ↔
      ptr ≤ p ∧ ∃ t, l[p - ptr]? = some t ∧ retains f t = true := by
  induction l generalizing ptr with
  | nil => simp [keptPositions]
  | cons t rest ih =>
    simp only [keptPositions, List.mem_append, ih, ptrIf]
    constructor
    · rintro (h | ⟨h1, t1, h2, h3⟩)
      · by_cases hk : (directMatch f t || failedMatch f t) = true
        · simp only [hk, if_true, List.mem_singleton] at h
          subst h
          exact ⟨Nat.le_refl _, t, by simp, hk⟩
        · simp [hk] at h
      · refine ⟨by omega, t1, ?_, h3⟩
        have : p - ptr = (p - (ptr + 1)) + 1 := by omega
        rw [this, List.getElem?_cons_succ]
        exact h2
    · rintro ⟨h1, t1, h2, h3⟩
      by_cases hp : p = ptr
      · subst hp
        simp only [Nat.sub_self, List.getElem?_cons_zero, Option.some.injEq] at h2
        subst h2
        left
        simp only [retains] at h3
        simp [h3]
      · right
        refine ⟨by omega, t1, ?_, h3⟩
        have : p - ptr = (p - (ptr + 1)) + 1 := by omega
        rw [this, List.getElem?_cons_succ] at h2
        exact h2

theorem keptPositions_pairwise (f : BlockFilter) (ptr : Nat) (l : List TransactionTrace) :
    (keptPositions f ptr l).Pairwise (fun a b => a < b) := by
  induction l generalizing ptr with
  | nil => simp [keptPositions]
  | cons t rest ih =>
    simp only [keptPositions]
    rw [List.pairwise_append]
    refine ⟨?_, ih (ptr + 1), ?_⟩
    · unfold ptrIf
      split <;> simp
    · intro a ha b hb
      have hb1 := ((mem_keptPositions f (ptr + 1) rest b).1 hb).1
      have ha1 : a = ptr := by
        unfold ptrIf at ha
        split at ha
        · simpa using ha
        · simp at ha
      omega

theorem keptPositions_lt (f : BlockFilter) (l : List TransactionTrace) (p : Nat)
    (h : p ∈ keptPositions f 0 l) : p < l.length := by
  obtain ⟨_, t, ht, _⟩ := (mem_keptPositions f 0 l p).1 h
  simp only [Nat.sub_zero] at ht
  exact (List.getElem?_eq_some.1 ht).1

theorem deref_keptPositions (f : BlockFilter) (g : TransactionTrace → TransactionTrace)
    (l pre : List TransactionTrace) :
    deref (pre ++ l.map g) (keptPositions f pre.length l) = (l.filter (retains f)).map g := by
  induction l generalizing pre with
  | nil => simp [keptPositions, deref]
  | cons t rest ih =>
    have hrest := ih (pre ++ [g t])
    simp only [List.length_append, List.length_singleton, List.append_assoc,
      List.singleton_append] at hrest
    simp only [keptPositions, deref, List.filterMap_append, List.map_cons] at hrest ⊢
    rw [hrest]
    by_cases hk : retains f t = true
    · have hk1 : (directMatch f t || failedMatch f t) = true := hk
      have hget : (pre ++ g t :: List.map g rest)[pre.length]? = some (g t) := by
        rw [List.getElem?_append_right (Nat.le_refl _)]
        simp
      simp [ptrIf, hk1, List.filter_cons, hk, hget]
    · have hk1 : ¬ (directMatch f t || failedMatch f t) = true := hk
      simp [ptrIf, hk1, List.filter_cons, hk]

theorem deref_forall₂ (objects : List TransactionTrace) (ptrs : List Nat)
    (h : ∀ p ∈ ptrs, p < objects.length) :
    List.Forall₂ (fun p t => objects[p]? = some t) ptrs (deref objects ptrs) := by
  induction ptrs with
  | nil => simp [deref]
  | cons p rest ih =>
    have hp : p < objects.length := h p (by simp)
    have hrest := ih (fun q hq => h q (by simp [hq]))
    simp only [deref, List.filterMap_cons, List.getElem?_eq_getElem hp] at hrest ⊢
    exact List.Forall₂.cons (List.getElem?_eq_getElem hp) hrest

/-! ## The walk in closed form -/

theorem initialState_input_lt : initialState.filteredExecutedInputActionCount < 2 ^ 32 := by
  decide

theorem initialState_total_lt : initialState.filteredExecutedTotalActionCount < 2 ^ 32 := by
  decide

theorem walkedTraces_eq (f : BlockFilter) (block : Block) :
    walkedTraces f block = block.UnfilteredTransactionTraces.map (markTrx f) :=
  (trxLoop_eq f 0 _ initialState initialState_input_lt initialState_total_lt).1

theorem retainedPositions_eq (f : BlockFilter) (block : Block) :
    retainedPositions f block = keptPositions f 0 block.UnfilteredTransactionTraces := by
  have h := (trxLoop_eq f 0 block.UnfilteredTransactionTraces initialState
    initialState_input_lt initialState_total_lt).2.1
  simpa [retainedPositions, walk, initialState] using h

theorem transfromInPlace_filtered (f : BlockFilter) (block : Block) :
    (transfromInPlace f block).FilteredTransactionTraces =
      (block.UnfilteredTransactionTraces.filter (retains f)).map (markTrx f) := by
  have h1 := walkedTraces_eq f block
  have h2 := retainedPositions_eq f block
  have h3 := deref_keptPositions f (markTrx f) block.UnfilteredTransactionTraces []
  simp only [walkedTraces, retainedPositions] at h1 h2
  simp only [transfromInPlace, h1, h2]
  simpa using h3

theorem transfromInPlace_total (f : BlockFilter) (block : Block) :
    (transfromInPlace f block).FilteredExecutedTotalActionCount =
      uint32 ((block.UnfilteredTransactionTraces.map (directCount f)).sum) := by
  have h := (trxLoop_eq f 0 block.UnfilteredTransactionTraces initialState
    initialState_input_lt initialState_total_lt).2.2.2
  simpa [transfromInPlace, walk, initialState, uint32] using h

theorem transfromInPlace_input (f : BlockFilter) (block : Block) :
    (transfromInPlace f block).FilteredExecutedInputActionCount =
      uint32 ((block.UnfilteredTransactionTraces.map (directInputCount f)).sum) := by
  have h := (trxLoop_eq f 0 block.UnfilteredTransactionTraces initialState
    initialState_input_lt initialState_total_lt).2.2.1
  simpa [transfromInPlace, walk, initialState, uint32] using h

theorem shouldProcess_eq_combinedDecision (f : BlockFilter) (trxTrace : TransactionTrace)
    (actTrace : ActionTrace) :
    shouldProcess f trxTrace actTrace = combinedDecision f actTrace trxTrace.Scheduled := by
  simp only [shouldProcess, combinedDecision]
  cases f.IncludeProgram.match_ { trace := actTrace, trxScheduled := trxTrace.Scheduled } <;>
    cases f.ExcludeProgram.match_ { trace := actTrace, trxScheduled := trxTrace.Scheduled } <;>
    rfl

theorem directMatch_iff (f : BlockFilter) (trxTrace : TransactionTrace) :
    directMatch f trxTrace = true ↔
      ∃ a ∈ trxTrace.ActionTraces, shouldProcess f trxTrace a = true := by
  simp [directMatch, List.any_eq_true]

theorem failedMatch_iff (f : BlockFilter) (trxTrace : TransactionTrace) :
    failedMatch f trxTrace = true ↔
      ∃ failed, trxTrace.FailedDtrxTrace = some failed ∧
        ∃ d ∈ failed.ActionTraces, shouldProcess f failed d = true := by
  unfold failedMatch
  cases trxTrace.FailedDtrxTrace with
  | none => simp
  | some failed => simp [List.any_eq_true]

theorem retains_iff (f : BlockFilter) (trxTrace : TransactionTrace) :
    retains f trxTrace = true ↔
      (∃ a ∈ trxTrace.ActionTraces, shouldProcess f trxTrace a = true) ∨
      (∃ failed, trxTrace.FailedDtrxTrace = some failed ∧
        ∃ d ∈ failed.ActionTraces, shouldProcess f failed d = true) := by
  simp only [retains, Bool.or_eq_true, directMatch_iff, failedMatch_iff]

theorem mem_retainedPositions (f : BlockFilter) (block : Block) (i : Nat)
    (trxTrace : TransactionTrace) (h : block.UnfilteredTransactionTraces[i]? = some trxTrace) :
    i ∈ retainedPositions f block ↔ retains f trxTrace = true := by
  rw [retainedPositions_eq, mem_keptPositions]
  simp only [Nat.sub_zero, Nat.zero_le, true_and, h, Option.some.injEq, exists_eq_left']

theorem retainedPositions_lt (f : BlockFilter) (block : Block) (p : Nat)
    (h : p ∈ retainedPositions f block) : p < block.UnfilteredTransactionTraces.length := by
  rw [retainedPositions_eq] at h
  exact keptPositions_lt f _ p h

theorem walkedTraces_length (f : BlockFilter) (block : Block) :
    (walkedTraces f block).length = block.UnfilteredTransactionTraces.length := by
  simp [walkedTraces_eq]

theorem filtered_forall₂ (f : BlockFilter) (block : Block) :
    List.Forall₂ (fun p t => (walkedTraces f block)[p]? = some t)
      (retainedPositions f block) (transfromInPlace f block).FilteredTransactionTraces := by
  have h := deref_forall₂ (walkedTraces f block) (retainedPositions f block)
    (fun p hp => by rw [walkedTraces_length]; exact retainedPositions_lt f block p hp)
  exact h

theorem keptPositions_sublist (f : BlockFilter) (ptr : Nat) (l : List TransactionTrace) :
    (keptPositions f ptr l).Sublist (List.range' ptr l.length) := by
  induction l generalizing ptr with
  | nil => simp [keptPositions]
  | cons t rest ih =>
    simp only [keptPositions, List.length_cons, List.range'_succ, ptrIf]
    split
    · exact (ih (ptr + 1)).cons₂ ptr
    · exact (ih (ptr + 1)).cons ptr

theorem clear_markIf (p : ActionTrace → Bool) (acts : List ActionTrace) :
    (acts.map (markIf p)).map (fun a => { a with FilteringMatched := false }) =
      acts.map (fun a => { a with FilteringMatched := false }) := by
  rw [List.map_map]
  refine List.map_congr_left ?_
  intro a _
  simp only [Function.comp, markIf]
  split <;> rfl

theorem clearMatched_markTrx (f : BlockFilter) (t : TransactionTrace) :
    clearMatched (markTrx f t) = clearMatched t := by
  cases hfd : t.FailedDtrxTrace with
  | none =>
    simp only [clearMatched, markTrx, hfd, clear_markIf, TransactionTrace.ActionTraces_mk,
      TransactionTrace.FailedDtrxTrace_mk, TransactionTrace.Scheduled_mk, Option.map_none']
  | some failed =>
    simp only [clearMatched, markTrx, markFailed, hfd, clear_markIf,
      TransactionTrace.ActionTraces_mk, TransactionTrace.FailedDtrxTrace_mk,
      TransactionTrace.Scheduled_mk, Option.map_some']

theorem filtered_sublist (f : BlockFilter) (block : Block) :
    ((transfromInPlace f block).FilteredTransactionTraces.map clearMatched).Sublist
      (block.UnfilteredTransactionTraces.map clearMatched) := by
  rw [transfromInPlace_filtered, List.map_map]
  have hfun : clearMatched ∘ markTrx f = clearMatched := by
    funext t
    exact clearMatched_markTrx f t
  rw [hfun]
  exact (List.filter_sublist _).map clearMatched

/-! ## Counting lemmas -/

theorem countP_matched_map_markIf (p : ActionTrace → Bool) (acts : List ActionTrace)
    (h : ∀ a ∈ acts, a.FilteringMatched = false) :
    (acts.map (markIf p)).countP (fun a => a.FilteringMatched) = acts.countP p := by
  induction acts with
  | nil => rfl
  | cons a rest ih =>
    have ha : a.FilteringMatched = false := h a (by simp)
    have hrest := ih (fun b hb => h b (by simp [hb]))
    simp only [List.map_cons, List.countP_cons, hrest]
    by_cases hp : p a = true
    · simp [markIf, hp]
    · simp [markIf, hp, ha]

theorem countP_matched_input_map_markIf (p : ActionTrace → Bool) (acts : List ActionTrace)
    (h : ∀ a ∈ acts, a.FilteringMatched = false) :
    (acts.map (markIf p)).countP (fun a => a.FilteringMatched && a.IsInput) =
      acts.countP (fun a => p a && a.IsInput) := by
  induction acts with
  | nil => rfl
  | cons a rest ih =>
    have ha : a.FilteringMatched = false := h a (by simp)
    have hrest := ih (fun b hb => h b (by simp [hb]))
    simp only [List.map_cons, List.countP_cons, hrest]
    by_cases hp : p a = true
    · simp [markIf, hp, ActionTrace.IsInput]
    · simp [markIf, hp, ha]

theorem directCount_eq_zero_of_not_retains (f : BlockFilter) (t : TransactionTrace)
    (h : ¬ retains f t = true) : directCount f t = 0 ∧ directInputCount f t = 0 := by
  have hd : ∀ a ∈ t.ActionTraces, ¬ shouldProcess f t a = true := by
    intro a ha hp
    exact h ((retains_iff f t).2 (Or.inl ⟨a, ha, hp⟩))
  constructor
  · exact List.countP_eq_zero.2 hd
  · refine List.countP_eq_zero.2 ?_
    intro a ha
    simp [hd a ha]

theorem matchedDirectCount_marked (f : BlockFilter) (l : List TransactionTrace)
    (h : ∀ t ∈ l, ∀ a ∈ t.ActionTraces, a.FilteringMatched = false) :
    matchedDirectCount (l.map (markTrx f)) = (l.map (directCount f)).sum ∧
    matchedDirectInputCount (l.map (markTrx f)) = (l.map (directInputCount f)).sum := by
  induction l with
  | nil => exact ⟨rfl, rfl⟩
  | cons t rest ih =>
    obtain ⟨h1, h2⟩ := ih (fun s hs => h s (by simp [hs]))
    have ht := h t (by simp)
    simp only [matchedDirectCount, matchedDirectInputCount] at h1 h2 ⊢
    simp only [List.map_cons, List.sum_cons, h1, h2]
    constructor
    · simp only [markTrx, TransactionTrace.ActionTraces_mk, directCount,
        countP_matched_map_markIf _ _ ht]
    · simp only [markTrx, TransactionTrace.ActionTraces_mk, directInputCount,
        countP_matched_input_map_markIf _ _ ht]

theorem sum_directCount_filter_retains (f : BlockFilter) (l : List TransactionTrace) :
    ((l.filter (retains f)).map (directCount f)).sum = (l.map (directCount f)).sum ∧
    ((l.filter (retains f)).map (directInputCount f)).sum =
      (l.map (directInputCount f)).sum := by
  induction l with
  | nil => exact ⟨rfl, rfl⟩
  | cons t rest ih =>
    obtain ⟨h1, h2⟩ := ih
    by_cases hk : retains f t = true
    · simp [List.filter_cons, hk, h1, h2]
    · obtain ⟨z1, z2⟩ := directCount_eq_zero_of_not_retains f t hk
      simp [List.filter_cons, hk, h1, h2, z1, z2]

theorem matched_counts_of_filtered (f : BlockFilter) (block : Block)
    (h : ∀ t ∈ block.UnfilteredTransactionTraces, ∀ a ∈ t.ActionTraces,
      a.FilteringMatched = false) :
    matchedDirectCount (transfromInPlace f block).FilteredTransactionTraces =
      (block.UnfilteredTransactionTraces.map (directCount f)).sum ∧
    matchedDirectInputCount (transfromInPlace f block).FilteredTransactionTraces =
      (block.UnfilteredTransactionTraces.map (directInputCount f)).sum := by
  rw [transfromInPlace_filtered]
  have hsub : ∀ t ∈ block.UnfilteredTransactionTraces.filter (retains f),
      ∀ a ∈ t.ActionTraces, a.FilteringMatched = false :=
    fun t ht => h t (List.mem_filter.1 ht).1
  obtain ⟨m1, m2⟩ := matchedDirectCount_marked f _ hsub
  obtain ⟨s1, s2⟩ := sum_directCount_filter_retains f block.UnfilteredTransactionTraces
  exact ⟨m1.trans s1, m2.trans s2⟩

theorem directInputCount_le (f : BlockFilter) (l : List TransactionTrace) :
    (l.map (directInputCount f)).sum ≤ (l.map (directCount f)).sum := by
  induction l with
  | nil => simp
  | cons t rest ih =>
    have ht : directInputCount f t ≤ directCount f t := by
      unfold directInputCount directCount
      exact List.countP_mono_left (fun a _ ha => by
        simp only [Bool.and_eq_true] at ha
        exact ha.1)
    simp only [List.map_cons, List.sum_cons]
    omega

theorem manyActionsBlock_counts (n : Nat) :
    (transfromInPlace includeAllFilter (manyActionsBlock n)).FilteredExecutedTotalActionCount =
      uint32 n ∧
    matchedDirectCount
      (transfromInPlace includeAllFilter (manyActionsBlock n)).FilteredTransactionTraces = n := by
  have hsp : ∀ t a, shouldProcess includeAllFilter t a = true := fun _ _ => rfl
  have hall : ∀ t ∈ (manyActionsBlock n).UnfilteredTransactionTraces, ∀ a ∈ t.ActionTraces,
      a.FilteringMatched = false := by
    intro t ht a ha
    simp only [manyActionsBlock, List.mem_singleton] at ht
    subst ht
    simp only [TransactionTrace.ActionTraces_mk, List.mem_replicate] at ha
    rw [ha.2]
    rfl
  have hsum : ((manyActionsBlock n).UnfilteredTransactionTraces.map
      (directCount includeAllFilter)).sum = n := by
    simp [manyActionsBlock, directCount, List.countP_replicate, hsp]
  refine ⟨?_, ?_⟩
  · rw [transfromInPlace_total, hsum]
  · rw [(matched_counts_of_filtered includeAllFilter (manyActionsBlock n) hall).1, hsum]

theorem forall₂_markIf (p : ActionTrace → Bool) (acts : List ActionTrace) :
    List.Forall₂ (fun a0 a => a = a0 ∨ a = { a0 with FilteringMatched := true })
      acts (acts.map (markIf p)) := by
  induction acts with
  | nil => exact List.Forall₂.nil
  | cons a rest ih =>
    refine List.Forall₂.cons ?_ ih
    unfold markIf
    split
    · exact Or.inr rfl
    · exact Or.inl rfl

theorem walkedTraces_getElem? (f : BlockFilter) (block : Block) (p : Nat)
    (t : TransactionTrace) (h : (walkedTraces f block)[p]? = some t) :
    ∃ t0, block.UnfilteredTransactionTraces[p]? = some t0 ∧ t = markTrx f t0 := by
  rw [walkedTraces_eq, List.getElem?_map] at h
  cases h0 : block.UnfilteredTransactionTraces[p]? with
  | none => simp [h0] at h
  | some t0 =>
    refine ⟨t0, rfl, ?_⟩
    simpa [h0] using h.symm

theorem TransformInPlace_of_not_noop (f : BlockFilter) (blk : BstreamBlock) (block : Block)
    (hnative : blk.native = .eosBlock block)
    (hnoop : ¬ (f.IncludeProgram.IsNoop = true ∧ f.ExcludeProgram.IsNoop = true)) :
    TransformInPlace f blk =
      .returned none
        { native := .eosBlock (transfromInPlace f block),
          toNativeCalls := blk.toNativeCalls + 1 } := by
  unfold TransformInPlace
  have h : (f.IncludeProgram.IsNoop && f.ExcludeProgram.IsNoop) = false := by
    cases h1 : f.IncludeProgram.IsNoop <;> cases h2 : f.ExcludeProgram.IsNoop <;>
      simp_all
  simp only [h, Bool.false_eq_true, if_false, hnative]

theorem filtered_length (f : BlockFilter) (block : Block) :
    (transfromInPlace f block).FilteredTransactionTraces.length =
      (retainedPositions f block).length ∧
    (transfromInPlace f block).FilteredTransactionTraces.length ≤
      block.UnfilteredTransactionTraces.length := by
  constructor
  · exact (filtered_forall₂ f block).length_eq.symm
  · rw [transfromInPlace_filtered, List.length_map]
    exact List.length_filter_le _ _

theorem directCount_congr (f : BlockFilter) (t1 t2 : TransactionTrace)
    (h : t1.ActionTraces = t2.ActionTraces ∧ t1.Scheduled = t2.Scheduled) :
    directCount f t1 = directCount f t2 ∧ directInputCount f t1 = directInputCount f t2 := by
  have hsp : shouldProcess f t1 = shouldProcess f t2 := by
    funext a
    rw [shouldProcess_eq_combinedDecision, shouldProcess_eq_combinedDecision, h.2]
  simp only [directCount, directInputCount, h.1, hsp, and_self]

theorem sum_directCount_congr (f : BlockFilter) (l1 l2 : List TransactionTrace)
    (h : List.Forall₂ (fun t1 t2 => t1.ActionTraces = t2.ActionTraces ∧
      t1.Scheduled = t2.Scheduled) l1 l2) :
    (l1.map (directCount f)).sum = (l2.map (directCount f)).sum ∧
    (l1.map (directInputCount f)).sum = (l2.map (directInputCount f)).sum := by
  induction h with
  | nil => exact ⟨rfl, rfl⟩
  | cons hab _ ih =>
    obtain ⟨c1, c2⟩ := directCount_congr f _ _ hab
    simp only [List.map_cons, List.sum_cons, c1, c2, ih.1, ih.2, and_self]

theorem sum_directCount_of_no_direct (f : BlockFilter) (l : List TransactionTrace)
    (h : ∀ t ∈ l, t.ActionTraces = []) :
    (l.map (directCount f)).sum = 0 ∧ (l.map (directInputCount f)).sum = 0 := by
  induction l with
  | nil => exact ⟨rfl, rfl⟩
  | cons t rest ih =>
    obtain ⟨h1, h2⟩ := ih (fun s hs => h s (by simp [hs]))
    have ht := h t (by simp)
    simp [directCount, directInputCount, ht, h1, h2]

theorem filter_retains_length_of_no_direct (f : BlockFilter) (l : List TransactionTrace)
    (h : ∀ t ∈ l, t.ActionTraces = []) :
    (l.filter (retains f)).length = l.countP (failedMatch f) := by
  rw [← List.countP_eq_length_filter]
  refine List.countP_congr ?_
  intro t ht
  simp [retains, directMatch, h t ht]

theorem manyFailedBlock_count (n : Nat) :
    (∀ t ∈ (manyFailedBlock n).UnfilteredTransactionTraces, t.ActionTraces = []) ∧
    (transfromInPlace includeAllFilter (manyFailedBlock n)).FilteredTransactionTraceCount =
      uint32 n ∧
    (manyFailedBlock n).UnfilteredTransactionTraces.countP (failedMatch includeAllFilter) = n := by
  have hall : ∀ t ∈ (manyFailedBlock n).UnfilteredTransactionTraces, t.ActionTraces = [] := by
    intro t ht
    simp only [manyFailedBlock, List.mem_replicate] at ht
    rw [ht.2]
    rfl
  have hfm : failedMatch includeAllFilter unscheduledWithFailed = true := rfl
  have hcount : (manyFailedBlock n).UnfilteredTransactionTraces.countP
      (failedMatch includeAllFilter) = n := by
    simp [manyFailedBlock, List.countP_replicate, hfm]
  refine ⟨hall, ?_, hcount⟩
  have hlen : (transfromInPlace includeAllFilter
      (manyFailedBlock n)).FilteredTransactionTraces.length = n := by
    rw [transfromInPlace_filtered, List.length_map,
      filter_retains_length_of_no_direct _ _ hall, hcount]
  have hdef : (transfromInPlace includeAllFilter
      (manyFailedBlock n)).FilteredTransactionTraceCount =
      uint32 (transfromInPlace includeAllFilter
        (manyFailedBlock n)).FilteredTransactionTraces.length := rfl
  rw [hdef, hlen]

/-! ## C1: the evaluation context of failed deferred actions -/

/-- C1 (as stated, refuted): on `blockWithFailed` the transaction `T` is not
scheduled while its failed deferred trace is.  With the include program
`scheduled`, the claimed decision `include(d, T.scheduled) and not
exclude(d, T.scheduled)` is false for the failed action `d`, yet the transform
marks `d` as matched and retains `T`. -/
theorem C1_counterexample :
    unscheduledWithFailed.FailedDtrxTrace = some failedScheduled ∧
    failedScheduled.ActionTraces = [transferAction] ∧
    combinedDecision scheduledFilter transferAction unscheduledWithFailed.Scheduled = false ∧
    retainedPositions scheduledFilter blockWithFailed = [0] ∧
    (transfromInPlace scheduledFilter blockWithFailed).FilteredTransactionTraces =
      [.mk [] (some (.mk [{ transferAction with FilteringMatched := true }] none true)) false] :=
  ⟨rfl, rfl, rfl, rfl, rfl⟩

/-- C1 (amended): for a transaction `T` at position `i` with failed deferred
trace `F`, every action `d` of `F` is decided on the context `{d, F.Scheduled}`,
the scheduled flag of the failed trace itself: after the walk the actions of `F`
are the original ones, with `FilteringMatched` set on exactly those for which
include matches and exclude does not on that context; such an action makes `T`
retained; and `T` is retained exactly when a direct action passes on
`{a, T.Scheduled}` or a failed action passes on `{d, F.Scheduled}`. -/
theorem C1_failed_actions_decided_with_failed_scheduled (f : BlockFilter) (block : Block)
    (i : Nat) (T F : TransactionTrace)
    (hT : block.UnfilteredTransactionTraces[i]? = some T)
    (hF : T.FailedDtrxTrace = some F) :
    (∃ T1, (walkedTraces f block)[i]? = some T1 ∧
      T1.FailedDtrxTrace = some (.mk
        (F.ActionTraces.map (fun d =>
          if combinedDecision f d F.Scheduled then { d with FilteringMatched := true } else d))
        F.FailedDtrxTrace F.Scheduled)) ∧
    (∀ d ∈ F.ActionTraces, combinedDecision f d F.Scheduled = true →
      i ∈ retainedPositions f block) ∧
    (i ∈ retainedPositions f block ↔
      (∃ a ∈ T.ActionTraces, combinedDecision f a T.Scheduled = true) ∨
      (∃ d ∈ F.ActionTraces, combinedDecision f d F.Scheduled = true)) := by
  have hmem := mem_retainedPositions f block i T hT
  have hret : retains f T = true ↔
      (∃ a ∈ T.ActionTraces, combinedDecision f a T.Scheduled = true) ∨
      (∃ d ∈ F.ActionTraces, combinedDecision f d F.Scheduled = true) := by
    rw [retains_iff]
    simp [hF, shouldProcess_eq_combinedDecision]
  refine ⟨⟨markTrx f T, ?_, ?_⟩, ?_, hmem.trans hret⟩
  · rw [walkedTraces_eq, List.getElem?_map, hT]
    rfl
  · have hfun : markIf (shouldProcess f F) = fun d =>
        if combinedDecision f d F.Scheduled then { d with FilteringMatched := true } else d := by
      funext d
      simp [markIf, shouldProcess_eq_combinedDecision]
    simp only [markTrx, TransactionTrace.FailedDtrxTrace_mk, hF, Option.map_some', markFailed,
      hfun]
  · intro d hd hdec
    exact (hmem.trans hret).2 (Or.inr ⟨d, hd, hdec⟩)

/-- C1 (amended), applied to `blockWithFailed` with the filter `scheduledFilter`. -/
theorem C1_failed_actions_decided_with_failed_scheduled_witness :
    blockWithFailed.UnfilteredTransactionTraces[0]? = some unscheduledWithFailed ∧
    unscheduledWithFailed.FailedDtrxTrace = some failedScheduled ∧
    (0 ∈ retainedPositions scheduledFilter blockWithFailed ↔
      (∃ a ∈ unscheduledWithFailed.ActionTraces,
        combinedDecision scheduledFilter a unscheduledWithFailed.Scheduled = true) ∨
      (∃ d ∈ failedScheduled.ActionTraces,
        combinedDecision scheduledFilter d failedScheduled.Scheduled = true)) :=
  ⟨rfl, rfl,
    (C1_failed_actions_decided_with_failed_scheduled scheduledFilter blockWithFailed 0
      unscheduledWithFailed failedScheduled rfl rfl).2.2⟩

/-! ## C2: the fast path -/

/-- C2: when the include and the exclude program are both no-ops,
`TransformInPlace` returns a nil error and leaves the handle as it was: the
native block is equal to its input in every field (provenance fields, both
transaction sequences, the three counters, every `FilteringMatched` flag) and
`ToNative()` has not been called. -/
theorem C2_noop_filter_leaves_block_untouched (f : BlockFilter) (blk : BstreamBlock)
    (hinc : f.IncludeProgram.IsNoop = true) (hexc : f.ExcludeProgram.IsNoop = true) :
    TransformInPlace f blk = .returned none blk := by
  simp [TransformInPlace, hinc, hexc]

/-- C2, applied to the filter built from two empty expressions. -/
theorem C2_noop_filter_leaves_block_untouched_witness :
    noopFilter.IncludeProgram.IsNoop = true ∧ noopFilter.ExcludeProgram.IsNoop = true ∧
    TransformInPlace noopFilter handleWithFailed = .returned none handleWithFailed :=
  ⟨rfl, rfl, C2_noop_filter_leaves_block_untouched noopFilter handleWithFailed rfl rfl⟩

/-! ## C3: which transactions are retained -/

/-- C3: when the filter is not both-no-op and the handle decodes to `block`,
`TransformInPlace` rewrites the native block with `transfromInPlace`, and the
transaction trace `T` at position `i` of the original sequence is in the
retained sequence (its pointer is in `filteredTrxTrace`, and the entries of
`FilteredTransactionTraces` are the objects behind those pointers) if and only
if `shouldProcess` returned true for one of its direct actions, or `T` has a
failed deferred trace and `shouldProcess` returned true for one of the actions
of that trace.  In particular `T` is not retained when all its direct actions
fail and it has no failed deferred trace. -/
theorem C3_retained_iff_some_action_passes (f : BlockFilter) (blk : BstreamBlock)
    (block : Block) (i : Nat) (T : TransactionTrace)
    (hnative : blk.native = .eosBlock block)
    (hnoop : ¬ (f.IncludeProgram.IsNoop = true ∧ f.ExcludeProgram.IsNoop = true))
    (hT : block.UnfilteredTransactionTraces[i]? = some T) :
    TransformInPlace f blk =
      .returned none
        { native := .eosBlock (transfromInPlace f block),
          toNativeCalls := blk.toNativeCalls + 1 } ∧
    List.Forall₂ (fun p t => (walkedTraces f block)[p]? = some t)
      (retainedPositions f block) (transfromInPlace f block).FilteredTransactionTraces ∧
    (i ∈ retainedPositions f block ↔
      (∃ a ∈ T.ActionTraces, shouldProcess f T a = true) ∨
      (∃ F, T.FailedDtrxTrace = some F ∧ ∃ d ∈ F.ActionTraces, shouldProcess f F d = true)) ∧
    ((∀ a ∈ T.ActionTraces, shouldProcess f T a = false) → T.FailedDtrxTrace = none →
      i ∉ retainedPositions f block) := by
  have hiff := (mem_retainedPositions f block i T hT).trans (retains_iff f T)
  refine ⟨TransformInPlace_of_not_noop f blk block hnative hnoop, filtered_forall₂ f block,
    hiff, ?_⟩
  intro hall hnone hmem
  rcases hiff.1 hmem with ⟨a, ha, hp⟩ | ⟨F, hF, _⟩
  · rw [hall a ha] at hp
    exact Bool.false_ne_true hp
  · rw [hnone] at hF
    exact Option.noConfusion hF

/-- C3, applied to `blockWithFailed`, whose only transaction is retained through
its failed deferred trace. -/
theorem C3_retained_iff_some_action_passes_witness :
    handleWithFailed.native = .eosBlock blockWithFailed ∧
    ¬ (scheduledFilter.IncludeProgram.IsNoop = true ∧
        scheduledFilter.ExcludeProgram.IsNoop = true) ∧
    blockWithFailed.UnfilteredTransactionTraces[0]? = some unscheduledWithFailed ∧
    (0 ∈ retainedPositions scheduledFilter blockWithFailed ↔
      (∃ a ∈ unscheduledWithFailed.ActionTraces,
        shouldProcess scheduledFilter unscheduledWithFailed a = true) ∨
      (∃ F, unscheduledWithFailed.FailedDtrxTrace = some F ∧
        ∃ d ∈ F.ActionTraces, shouldProcess scheduledFilter F d = true)) :=
  ⟨rfl, by decide, rfl,
    (C3_retained_iff_some_action_passes scheduledFilter handleWithFailed blockWithFailed 0
      unscheduledWithFailed rfl (by decide) rfl).2.2.1⟩

/-! ## C4: order and multiplicity of the retained transactions -/

/-- C4: the pointers held by `filteredTrxTrace` after the walk, read as positions
in the original sequence, are strictly increasing, are positions of the
original sequence, contain no position twice (also when several direct and
failed deferred actions of one transaction pass) and form a subsequence of
`0, 1, ..., n-1`; the entries of `FilteredTransactionTraces` are, in the same
order, the transaction trace objects at those positions; and, the
`FilteringMatched` flags apart, `FilteredTransactionTraces` is a subsequence of
the original `UnfilteredTransactionTraces`. -/
theorem C4_retained_is_subsequence (f : BlockFilter) (block : Block) :
    (retainedPositions f block).Pairwise (fun p q => p < q) ∧
    (retainedPositions f block).Nodup ∧
    (∀ p ∈ retainedPositions f block, p < block.UnfilteredTransactionTraces.length) ∧
    (retainedPositions f block).Sublist
      (List.range block.UnfilteredTransactionTraces.length) ∧
    (walkedTraces f block).length = block.UnfilteredTransactionTraces.length ∧
    List.Forall₂ (fun p t => (walkedTraces f block)[p]? = some t)
      (retainedPositions f block) (transfromInPlace f block).FilteredTransactionTraces ∧
    ((transfromInPlace f block).FilteredTransactionTraces.map clearMatched).Sublist
      (block.UnfilteredTransactionTraces.map clearMatched) := by
  have hpw : (retainedPositions f block).Pairwise (fun p q => p < q) := by
    rw [retainedPositions_eq]
    exact keptPositions_pairwise f 0 _
  refine ⟨hpw, hpw.imp (fun h => Nat.ne_of_lt h), retainedPositions_lt f block, ?_,
    walkedTraces_length f block, filtered_forall₂ f block, filtered_sublist f block⟩
  rw [retainedPositions_eq, List.range_eq_range']
  exact keptPositions_sublist f 0 _

/-! ## C5: the two action counters -/

/-- C5 (as stated, refuted): a block whose single transaction has `2^32` direct
actions, all unmatched at the start and all passing the filter.  After the
transform all `2^32` direct actions are marked, and the `uint32` counter
`FilteredExecutedTotalActionCount` has wrapped around to `0`. -/
theorem C5_counterexample :
    (∀ t ∈ (manyActionsBlock (2 ^ 32)).UnfilteredTransactionTraces, ∀ a ∈ t.ActionTraces,
      a.FilteringMatched = false) ∧
    (transfromInPlace includeAllFilter
      (manyActionsBlock (2 ^ 32))).FilteredExecutedTotalActionCount = 0 ∧
    matchedDirectCount (transfromInPlace includeAllFilter
      (manyActionsBlock (2 ^ 32))).FilteredTransactionTraces = 2 ^ 32 := by
  obtain ⟨h1, h2⟩ := manyActionsBlock_counts (2 ^ 32)
  refine ⟨?_, ?_, h2⟩
  · intro t ht a ha
    simp only [manyActionsBlock, List.mem_singleton] at ht
    subst ht
    simp only [TransactionTrace.ActionTraces_mk, List.mem_replicate] at ha
    rw [ha.2]
    rfl
  · rw [h1]
    simp [uint32]

/-- C5 (amended): for a block whose direct actions all start unmatched,
`FilteredExecutedTotalActionCount` is the number of direct actions with
`FilteringMatched` set, reduced modulo `2^32`, and
`FilteredExecutedInputActionCount` is the number of those that are input
actions, reduced modulo `2^32`; the count is the same over the retained
transactions and over all transactions; and when fewer than `2^32` direct
actions are marked both counters equal these numbers exactly. -/
theorem C5_counters_count_matched_direct_actions (f : BlockFilter) (block : Block)
    (h : ∀ t ∈ block.UnfilteredTransactionTraces, ∀ a ∈ t.ActionTraces,
      a.FilteringMatched = false) :
    (transfromInPlace f block).FilteredExecutedTotalActionCount =
      uint32 (matchedDirectCount (transfromInPlace f block).FilteredTransactionTraces) ∧
    (transfromInPlace f block).FilteredExecutedInputActionCount =
      uint32 (matchedDirectInputCount (transfromInPlace f block).FilteredTransactionTraces) ∧
    matchedDirectCount (walkedTraces f block) =
      matchedDirectCount (transfromInPlace f block).FilteredTransactionTraces ∧
    matchedDirectInputCount (walkedTraces f block) =
      matchedDirectInputCount (transfromInPlace f block).FilteredTransactionTraces ∧
    (matchedDirectCount (transfromInPlace f block).FilteredTransactionTraces < 2 ^ 32 →
      (transfromInPlace f block).FilteredExecutedTotalActionCount =
        matchedDirectCount (transfromInPlace f block).FilteredTransactionTraces ∧
      (transfromInPlace f block).FilteredExecutedInputActionCount =
        matchedDirectInputCount (transfromInPlace f block).FilteredTransactionTraces) := by
  obtain ⟨m1, m2⟩ := matched_counts_of_filtered f block h
  obtain ⟨w1, w2⟩ := matchedDirectCount_marked f block.UnfilteredTransactionTraces h
  have hle := directInputCount_le f block.UnfilteredTransactionTraces
  rw [walkedTraces_eq, m1, m2, w1, w2, transfromInPlace_total, transfromInPlace_input]
  refine ⟨rfl, rfl, rfl, rfl, ?_⟩
  intro hlt
  exact ⟨uint32_of_lt hlt, uint32_of_lt (by omega)⟩

/-- C5 (amended), applied to a block with one transaction of three direct
actions, all passing. -/
theorem C5_counters_count_matched_direct_actions_witness :
    (∀ t ∈ (manyActionsBlock 3).UnfilteredTransactionTraces, ∀ a ∈ t.ActionTraces,
      a.FilteringMatched = false) ∧
    matchedDirectCount
      (transfromInPlace includeAllFilter (manyActionsBlock 3)).FilteredTransactionTraces
        < 2 ^ 32 ∧
    (transfromInPlace includeAllFilter (manyActionsBlock 3)).FilteredExecutedTotalActionCount =
      matchedDirectCount
        (transfromInPlace includeAllFilter (manyActionsBlock 3)).FilteredTransactionTraces ∧
    (transfromInPlace includeAllFilter (manyActionsBlock 3)).FilteredExecutedInputActionCount =
      matchedDirectInputCount
        (transfromInPlace includeAllFilter (manyActionsBlock 3)).FilteredTransactionTraces :=
  ⟨by decide, by decide,
    (C5_counters_count_matched_direct_actions includeAllFilter (manyActionsBlock 3)
      (by decide)).2.2.2.2 (by decide)⟩

/-! ## C6: direct actions of a retained transaction are kept -/

/-- C6: every entry `t` of `FilteredTransactionTraces` is the transaction trace
at a retained position `p` of the original sequence, and its direct actions are
those of the original `t0`, in the same number and order, each one equal to
its original or to its original with `FilteringMatched` set. -/
theorem C6_retained_keeps_all_direct_actions (f : BlockFilter) (block : Block) :
    List.Forall₂
      (fun p t => ∃ t0, block.UnfilteredTransactionTraces[p]? = some t0 ∧
        t.ActionTraces.length = t0.ActionTraces.length ∧
        List.Forall₂ (fun a0 a => a = a0 ∨ a = { a0 with FilteringMatched := true })
          t0.ActionTraces t.ActionTraces)
      (retainedPositions f block) (transfromInPlace f block).FilteredTransactionTraces := by
  refine (filtered_forall₂ f block).imp ?_
  intro p t h
  obtain ⟨t0, h0, ht⟩ := walkedTraces_getElem? f block p t h
  subst ht
  refine ⟨t0, h0, ?_, ?_⟩
  · simp [markTrx]
  · simpa [markTrx] using forall₂_markIf (shouldProcess f t0) t0.ActionTraces

/-! ## C7: the combined decision -/

/-- C7: `shouldProcess` is include and not exclude, both evaluated on the context
pairing the action with the `Scheduled` flag of the transaction trace it is
given: it returns true exactly when include matches and exclude does not, and
it returns false when include does not match, whatever exclude returns. -/
theorem C7_shouldProcess_is_include_and_not_exclude (f : BlockFilter)
    (acts : List ActionTrace) (failed : Option TransactionTrace) (scheduled : Bool)
    (actTrace : ActionTrace) :
    shouldProcess f (.mk acts failed scheduled) actTrace =
      (f.IncludeProgram.match_ { trace := actTrace, trxScheduled := scheduled } &&
        !f.ExcludeProgram.match_ { trace := actTrace, trxScheduled := scheduled }) ∧
    (shouldProcess f (.mk acts failed scheduled) actTrace = true ↔
      f.IncludeProgram.match_ { trace := actTrace, trxScheduled := scheduled } = true ∧
      f.ExcludeProgram.match_ { trace := actTrace, trxScheduled := scheduled } = false) ∧
    (f.IncludeProgram.match_ { trace := actTrace, trxScheduled := scheduled } = false →
      shouldProcess f (.mk acts failed scheduled) actTrace = false) := by
  have h := shouldProcess_eq_combinedDecision f (.mk acts failed scheduled) actTrace
  simp only [combinedDecision, TransactionTrace.Scheduled_mk] at h
  refine ⟨h, ?_, ?_⟩
  · rw [h]
    simp
  · intro hinc
    rw [h, hinc]
    rfl

/-- C7, applied to the filter `scheduledFilter` on an unscheduled transaction:
include does not match, so the action is not processed. -/
theorem C7_shouldProcess_is_include_and_not_exclude_witness :
    scheduledFilter.IncludeProgram.match_
      { trace := transferAction, trxScheduled := false } = false ∧
    shouldProcess scheduledFilter (.mk [] none false) transferAction = false :=
  ⟨rfl, (C7_shouldProcess_is_include_and_not_exclude scheduledFilter [] none false
    transferAction).2.2 rfl⟩

/-! ## C8 and C9: what the full rewrite stores in the block -/

/-- C8: when the filter is not both-no-op (one of the two programs may be a
no-op) and the handle decodes to a block, `TransformInPlace` returns a nil error
and the native block then has `FilteringApplied = true`,
`FilteringIncludeFilterExpr` equal to the source text of the include program and
`FilteringExcludeFilterExpr` equal to the source text of the exclude program. -/
theorem C8_provenance_fields_are_set (f : BlockFilter) (blk : BstreamBlock) (block : Block)
    (hnative : blk.native = .eosBlock block)
    (hnoop : ¬ (f.IncludeProgram.IsNoop = true ∧ f.ExcludeProgram.IsNoop = true)) :
    TransformInPlace f blk =
      .returned none
        { native := .eosBlock (transfromInPlace f block),
          toNativeCalls := blk.toNativeCalls + 1 } ∧
    (transfromInPlace f block).FilteringApplied = true ∧
    (transfromInPlace f block).FilteringIncludeFilterExpr = f.IncludeProgram.code ∧
    (transfromInPlace f block).FilteringExcludeFilterExpr = f.ExcludeProgram.code :=
  ⟨TransformInPlace_of_not_noop f blk block hnative hnoop, rfl, rfl, rfl⟩

/-- C8, applied to `scheduledFilter`, whose exclude program alone is a no-op. -/
theorem C8_provenance_fields_are_set_witness :
    handleWithFailed.native = .eosBlock blockWithFailed ∧
    ¬ (scheduledFilter.IncludeProgram.IsNoop = true ∧
        scheduledFilter.ExcludeProgram.IsNoop = true) ∧
    scheduledFilter.ExcludeProgram.IsNoop = true ∧
    TransformInPlace scheduledFilter handleWithFailed =
      .returned none
        { native := .eosBlock (transfromInPlace scheduledFilter blockWithFailed),
          toNativeCalls := handleWithFailed.toNativeCalls + 1 } ∧
    (transfromInPlace scheduledFilter blockWithFailed).FilteringApplied = true ∧
    (transfromInPlace scheduledFilter blockWithFailed).FilteringIncludeFilterExpr =
      scheduledFilter.IncludeProgram.code ∧
    (transfromInPlace scheduledFilter blockWithFailed).FilteringExcludeFilterExpr =
      scheduledFilter.ExcludeProgram.code :=
  ⟨rfl, by decide, rfl,
    C8_provenance_fields_are_set scheduledFilter handleWithFailed blockWithFailed rfl
      (by decide)⟩

/-- C9: when the filter is not both-no-op and the handle decodes to a block,
after `TransformInPlace` the native block has an empty
`UnfilteredTransactionTraces`, its `FilteredTransactionTraces` holds the retained
sequence (the objects behind the pointers of `filteredTrxTrace`, one entry per
pointer, in order), and `FilteredTransactionTraceCount` is the length of that
sequence converted to `uint32`, which is the length itself when the block has
fewer than `2^32` transactions. -/
theorem C9_retained_sequence_replaces_original (f : BlockFilter) (blk : BstreamBlock)
    (block : Block) (hnative : blk.native = .eosBlock block)
    (hnoop : ¬ (f.IncludeProgram.IsNoop = true ∧ f.ExcludeProgram.IsNoop = true)) :
    TransformInPlace f blk =
      .returned none
        { native := .eosBlock (transfromInPlace f block),
          toNativeCalls := blk.toNativeCalls + 1 } ∧
    (transfromInPlace f block).UnfilteredTransactionTraces = [] ∧
    List.Forall₂ (fun p t => (walkedTraces f block)[p]? = some t)
      (retainedPositions f block) (transfromInPlace f block).FilteredTransactionTraces ∧
    (transfromInPlace f block).FilteredTransactionTraceCount =
      uint32 (transfromInPlace f block).FilteredTransactionTraces.length ∧
    (block.UnfilteredTransactionTraces.length < 2 ^ 32 →
      (transfromInPlace f block).FilteredTransactionTraceCount =
        (transfromInPlace f block).FilteredTransactionTraces.length) := by
  refine ⟨TransformInPlace_of_not_noop f blk block hnative hnoop, rfl, filtered_forall₂ f block,
    rfl, ?_⟩
  intro hlt
  have hle := (filtered_length f block).2
  have hcount : (transfromInPlace f block).FilteredTransactionTraceCount =
      uint32 (transfromInPlace f block).FilteredTransactionTraces.length := rfl
  rw [hcount]
  exact uint32_of_lt (by omega)

/-- C9, applied to `blockWithFailed` and `scheduledFilter`: one transaction is
retained and the counter is 1. -/
theorem C9_retained_sequence_replaces_original_witness :
    handleWithFailed.native = .eosBlock blockWithFailed ∧
    ¬ (scheduledFilter.IncludeProgram.IsNoop = true ∧
        scheduledFilter.ExcludeProgram.IsNoop = true) ∧
    blockWithFailed.UnfilteredTransactionTraces.length < 2 ^ 32 ∧
    (transfromInPlace scheduledFilter blockWithFailed).FilteredTransactionTraceCount =
      (transfromInPlace scheduledFilter blockWithFailed).FilteredTransactionTraces.length :=
  ⟨rfl, by decide, by decide,
    (C9_retained_sequence_replaces_original scheduledFilter handleWithFailed blockWithFailed rfl
      (by decide)).2.2.2.2 (by decide)⟩

/-! ## C10: the action counters and the failed deferred traces -/

/-- C10 (as stated, refuted): a block of `2^32` transactions, each without direct
actions and each with a failed deferred action that passes the filter.  All
`2^32` transactions have a matching failed deferred action, and the `uint32`
field `FilteredTransactionTraceCount` has wrapped around to `0`. -/
theorem C10_counterexample :
    (∀ t ∈ (manyFailedBlock (2 ^ 32)).UnfilteredTransactionTraces, t.ActionTraces = []) ∧
    (transfromInPlace includeAllFilter
      (manyFailedBlock (2 ^ 32))).FilteredTransactionTraceCount = 0 ∧
    (manyFailedBlock (2 ^ 32)).UnfilteredTransactionTraces.countP
      (fun t => match t.FailedDtrxTrace with
        | none => false
        | some failed => failed.ActionTraces.any (shouldProcess includeAllFilter failed))
      = 2 ^ 32 := by
  obtain ⟨h1, h2, h3⟩ := manyFailedBlock_count (2 ^ 32)
  refine ⟨h1, ?_, h3⟩
  rw [h2]
  simp [uint32]

/-- C10 (amended): the two action counters do not depend on the failed deferred
traces: two blocks whose transaction traces agree, position by position, on
their direct actions and `Scheduled` flag get the same
`FilteredExecutedTotalActionCount` and the same
`FilteredExecutedInputActionCount`.  When no transaction of a block has a direct
action, both counters are `0` and `FilteredTransactionTraceCount` is the number
of transactions with a failed deferred action passing `shouldProcess`, reduced
modulo `2^32`: that number itself when the block has fewer than `2^32`
transactions. -/
theorem C10_counters_independent_of_failed_traces (f : BlockFilter) (b1 b2 : Block)
    (hsame : List.Forall₂
      (fun t1 t2 => t1.ActionTraces = t2.ActionTraces ∧ t1.Scheduled = t2.Scheduled)
      b1.UnfilteredTransactionTraces b2.UnfilteredTransactionTraces) :
    (transfromInPlace f b1).FilteredExecutedTotalActionCount =
      (transfromInPlace f b2).FilteredExecutedTotalActionCount ∧
    (transfromInPlace f b1).FilteredExecutedInputActionCount =
      (transfromInPlace f b2).FilteredExecutedInputActionCount ∧
    ((∀ t ∈ b1.UnfilteredTransactionTraces, t.ActionTraces = []) →
      (transfromInPlace f b1).FilteredExecutedTotalActionCount = 0 ∧
      (transfromInPlace f b1).FilteredExecutedInputActionCount = 0 ∧
      (transfromInPlace f b1).FilteredTransactionTraceCount =
        uint32 (b1.UnfilteredTransactionTraces.countP
          (fun t => match t.FailedDtrxTrace with
            | none => false
            | some failed => failed.ActionTraces.any (shouldProcess f failed))) ∧
      (b1.UnfilteredTransactionTraces.length < 2 ^ 32 →
        (transfromInPlace f b1).FilteredTransactionTraceCount =
          b1.UnfilteredTransactionTraces.countP
            (fun t => match t.FailedDtrxTrace with
              | none => false
              | some failed => failed.ActionTraces.any (shouldProcess f failed)))) := by
  obtain ⟨s1, s2⟩ := sum_directCount_congr f _ _ hsame
  refine ⟨?_, ?_, ?_⟩
  · rw [transfromInPlace_total, transfromInPlace_total, s1]
  · rw [transfromInPlace_input, transfromInPlace_input, s2]
  · intro hno
    obtain ⟨z1, z2⟩ := sum_directCount_of_no_direct f _ hno
    have hcount : (transfromInPlace f b1).FilteredTransactionTraceCount =
        uint32 (b1.UnfilteredTransactionTraces.countP (failedMatch f)) := by
      have hdef : (transfromInPlace f b1).FilteredTransactionTraceCount =
          uint32 (transfromInPlace f b1).FilteredTransactionTraces.length := rfl
      rw [hdef, transfromInPlace_filtered, List.length_map,
        filter_retains_length_of_no_direct f _ hno]
    refine ⟨?_, ?_, hcount, ?_⟩
    · rw [transfromInPlace_total, z1]; rfl
    · rw [transfromInPlace_input, z2]; rfl
    · intro hlt
      have hle : b1.UnfilteredTransactionTraces.countP (failedMatch f) ≤
          b1.UnfilteredTransactionTraces.length := List.countP_le_length _
      rw [hcount]
      exact uint32_of_lt (Nat.lt_of_le_of_lt hle hlt)

/-- C10 (amended), applied to `blockWithFailed` and to the same block without
the failed deferred trace. -/
theorem C10_counters_independent_of_failed_traces_witness :
    List.Forall₂
      (fun t1 t2 => t1.ActionTraces = t2.ActionTraces ∧ t1.Scheduled = t2.Scheduled)
      blockWithFailed.UnfilteredTransactionTraces
      blockWithoutFailed.UnfilteredTransactionTraces ∧
    (∀ t ∈ blockWithFailed.UnfilteredTransactionTraces, t.ActionTraces = []) ∧
    blockWithFailed.UnfilteredTransactionTraces.length < 2 ^ 32 ∧
    (transfromInPlace includeAllFilter blockWithFailed).FilteredExecutedTotalActionCount =
      (transfromInPlace includeAllFilter blockWithoutFailed).FilteredExecutedTotalActionCount ∧
    (transfromInPlace includeAllFilter blockWithFailed).FilteredTransactionTraceCount =
      blockWithFailed.UnfilteredTransactionTraces.countP
        (fun t => match t.FailedDtrxTrace with
          | none => false
          | some failed => failed.ActionTraces.any (shouldProcess includeAllFilter failed)) :=
  have hsame : List.Forall₂
      (fun t1 t2 => t1.ActionTraces = t2.ActionTraces ∧ t1.Scheduled = t2.Scheduled)
      blockWithFailed.UnfilteredTransactionTraces
      blockWithoutFailed.UnfilteredTransactionTraces :=
    List.Forall₂.cons ⟨rfl, rfl⟩ List.Forall₂.nil
  have hno : ∀ t ∈ blockWithFailed.UnfilteredTransactionTraces, t.ActionTraces = [] := by
    intro t ht
    simp only [blockWithFailed, List.mem_singleton] at ht
    rw [ht]
    rfl
  ⟨hsame, hno, by decide,
    (C10_counters_independent_of_failed_traces includeAllFilter blockWithFailed
      blockWithoutFailed hsame).1,
    ((C10_counters_independent_of_failed_traces includeAllFilter blockWithFailed
      blockWithoutFailed hsame).2.2 hno).2.2.2 (by decide)⟩

/-! ## Lemmas on the marks -/

theorem forall₂_map_of {α β : Type} (g : α → β) (P : α → β → Prop) (l : List α)
    (h : ∀ a ∈ l, P a (g a)) : List.Forall₂ P l (l.map g) := by
  induction l with
  | nil => exact List.Forall₂.nil
  | cons a rest ih =>
    exact List.Forall₂.cons (h a (by simp)) (ih (fun b hb => h b (by simp [hb])))

theorem markIf_shouldProcess_matched (f : BlockFilter) (t : TransactionTrace) (a : ActionTrace) :
    (markIf (shouldProcess f t) a).FilteringMatched =
      (a.FilteringMatched || combinedDecision f a t.Scheduled) ∧
    markIf (shouldProcess f t) a =
      { a with FilteringMatched := a.FilteringMatched || combinedDecision f a t.Scheduled } := by
  rw [← shouldProcess_eq_combinedDecision]
  unfold markIf
  cases hp : shouldProcess f t a <;> simp

/-! ## C11: the matched flag of the direct actions of a retained transaction -/

/-- C11: on a block whose direct actions all start with `FilteringMatched =
false`, every entry of `FilteredTransactionTraces` is the transaction trace `T`
at a retained position, and each of its direct actions is the original action
`a0` with `FilteringMatched` equal to the combined decision on the context
`{a0, T.Scheduled}`: the flag is true if and only if include matches and
exclude does not match on that context, and an action that does not pass is
left as it was, unmatched. -/
theorem C11_direct_action_matched_iff_decision (f : BlockFilter) (block : Block)
    (h : ∀ t ∈ block.UnfilteredTransactionTraces, ∀ a ∈ t.ActionTraces,
      a.FilteringMatched = false) :
    List.Forall₂
      (fun p t => ∃ T, block.UnfilteredTransactionTraces[p]? = some T ∧
        List.Forall₂
          (fun a0 a =>
            (a.FilteringMatched = true ↔
              f.IncludeProgram.match_ { trace := a0, trxScheduled := T.Scheduled } = true ∧
              f.ExcludeProgram.match_ { trace := a0, trxScheduled := T.Scheduled } = false) ∧
            a = { a0 with FilteringMatched := combinedDecision f a0 T.Scheduled } ∧
            (combinedDecision f a0 T.Scheduled = false → a = a0))
          T.ActionTraces t.ActionTraces)
      (retainedPositions f block) (transfromInPlace f block).FilteredTransactionTraces := by
  refine (filtered_forall₂ f block).imp ?_
  intro p t hp
  obtain ⟨T, hT, ht⟩ := walkedTraces_getElem? f block p t hp
  subst ht
  refine ⟨T, hT, ?_⟩
  have hmem : T ∈ block.UnfilteredTransactionTraces := List.getElem?_mem hT
  simp only [markTrx, TransactionTrace.ActionTraces_mk]
  refine forall₂_map_of _ _ _ ?_
  intro a ha
  have hfalse := h T hmem a ha
  obtain ⟨m1, m2⟩ := markIf_shouldProcess_matched f T a
  rw [hfalse, Bool.false_or] at m1 m2
  refine ⟨?_, m2, ?_⟩
  · rw [m1]
    simp [combinedDecision]
  · intro hdec
    rw [m2, hdec, ← hfalse]

/-- C11, applied to the example block of the spec. -/
theorem C11_direct_action_matched_iff_decision_witness :
    (∀ t ∈ (exampleBlock true).UnfilteredTransactionTraces, ∀ a ∈ t.ActionTraces,
      a.FilteringMatched = false) ∧
    List.Forall₂
      (fun p t => ∃ T, (exampleBlock true).UnfilteredTransactionTraces[p]? = some T ∧
        List.Forall₂
          (fun a0 a =>
            (a.FilteringMatched = true ↔
              exampleFilter.IncludeProgram.match_
                { trace := a0, trxScheduled := T.Scheduled } = true ∧
              exampleFilter.ExcludeProgram.match_
                { trace := a0, trxScheduled := T.Scheduled } = false) ∧
            a = { a0 with FilteringMatched := combinedDecision exampleFilter a0 T.Scheduled } ∧
            (combinedDecision exampleFilter a0 T.Scheduled = false → a = a0))
          T.ActionTraces t.ActionTraces)
      (retainedPositions exampleFilter (exampleBlock true))
      (transfromInPlace exampleFilter (exampleBlock true)).FilteredTransactionTraces :=
  ⟨by decide, C11_direct_action_matched_iff_decision exampleFilter (exampleBlock true)
    (by decide)⟩

/-! ## C12: the example scenario of the spec -/

/-- C12: on the example block of the spec, whatever the `Scheduled` flag `s` of
the failed deferred trace of `T3`, `TransformInPlace` with include `action name
is transfer` and exclude `action account is spammer` returns a nil error and
the native block then has retained sequence `[T1, T3]` (positions 0 and 2), the
transfer action of `T1` matched and its issue action unmatched, the failed
deferred action of `T3` matched, `FilteredTransactionTraceCount = 2`,
`FilteredExecutedTotalActionCount = 1` and
`FilteredExecutedInputActionCount = 1`. -/
theorem C12_example_scenario (s : Bool) (calls : Nat) :
    TransformInPlace exampleFilter
        { native := .eosBlock (exampleBlock s), toNativeCalls := calls } =
      .returned none
        { native := .eosBlock (transfromInPlace exampleFilter (exampleBlock s)),
          toNativeCalls := calls + 1 } ∧
    retainedPositions exampleFilter (exampleBlock s) = [0, 2] ∧
    (transfromInPlace exampleFilter (exampleBlock s)).FilteredTransactionTraces =
      [.mk [{ transferAction with FilteringMatched := true }, issueAction] none false,
        .mk [] (some (.mk [{ transferAction with FilteringMatched := true }] none s)) true] ∧
    (transfromInPlace exampleFilter (exampleBlock s)).UnfilteredTransactionTraces = [] ∧
    (transfromInPlace exampleFilter (exampleBlock s)).FilteredTransactionTraceCount = 2 ∧
    (transfromInPlace exampleFilter (exampleBlock s)).FilteredExecutedTotalActionCount = 1 ∧
    (transfromInPlace exampleFilter (exampleBlock s)).FilteredExecutedInputActionCount = 1 := by
  cases s <;> exact ⟨rfl, rfl, rfl, rfl, rfl, rfl, rfl⟩

/-! ## C13: construction of the filter -/

/-- C13: `NewBlockFilter`, for any outcome of the two compilations.  If the
include expression fails to compile with error `e`, the result is no filter and
the error with message `include filter: ` followed by the message of `e`, which
wraps `e`, whatever the exclude side does.  If include compiles and exclude
fails with `e`, the result is no filter and the error with message
`exclude filter: ` followed by the message of `e`, which wraps `e`.  If both
compile, the result is the filter holding exactly the two programs, and a nil
error.  A filter is returned if and only if both compile, and then the error is
nil. -/
theorem C13_NewBlockFilter_outcomes
    (newCELFilterInclude newCELFilterExclude : String → Except GoError CELFilter)
    (includeProgramCode excludeProgramCode : String) :
    (∀ e, newCELFilterInclude includeProgramCode = .error e →
      NewBlockFilter newCELFilterInclude newCELFilterExclude includeProgramCode
          excludeProgramCode =
        (none, some (.wrapError ("include filter: " ++ e.Error) e)) ∧
      (GoError.wrapError ("include filter: " ++ e.Error) e).Unwrap = some e) ∧
    (∀ p e, newCELFilterInclude includeProgramCode = .ok p →
      newCELFilterExclude excludeProgramCode = .error e →
      NewBlockFilter newCELFilterInclude newCELFilterExclude includeProgramCode
          excludeProgramCode =
        (none, some (.wrapError ("exclude filter: " ++ e.Error) e)) ∧
      (GoError.wrapError ("exclude filter: " ++ e.Error) e).Unwrap = some e) ∧
    (∀ p q, newCELFilterInclude includeProgramCode = .ok p →
      newCELFilterExclude excludeProgramCode = .ok q →
      NewBlockFilter newCELFilterInclude newCELFilterExclude includeProgramCode
          excludeProgramCode =
        (some { IncludeProgram := p, ExcludeProgram := q }, none)) ∧
    (((NewBlockFilter newCELFilterInclude newCELFilterExclude includeProgramCode
          excludeProgramCode).1.isSome = true ∧
        (NewBlockFilter newCELFilterInclude newCELFilterExclude includeProgramCode
          excludeProgramCode).2 = none) ↔
      ∃ p q, newCELFilterInclude includeProgramCode = .ok p ∧
        newCELFilterExclude excludeProgramCode = .ok q) ∧
    ((NewBlockFilter newCELFilterInclude newCELFilterExclude includeProgramCode
        excludeProgramCode).1.isSome = true ↔
      (NewBlockFilter newCELFilterInclude newCELFilterExclude includeProgramCode
        excludeProgramCode).2 = none) := by
  unfold NewBlockFilter
  cases hinc : newCELFilterInclude includeProgramCode with
  | error e1 => simp [Errorf, GoError.Unwrap]
  | ok p1 =>
    cases hexc : newCELFilterExclude excludeProgramCode with
    | error e2 => simp [Errorf, GoError.Unwrap]
    | ok q1 => simp [GoError.Unwrap]

/-- C13, applied to an include expression that does not compile, to an exclude
expression that does not compile after an include that does, and to two
expressions that compile. -/
theorem C13_NewBlockFilter_outcomes_witness :
    rejectAll "action name equals (" = .error (.plain "syntax error") ∧
    acceptAll "" = .ok noopExclude ∧
    NewBlockFilter rejectAll acceptAll "action name equals (" "" =
      (none, some (.wrapError ("include filter: " ++ (GoError.plain "syntax error").Error)
        (.plain "syntax error"))) ∧
    NewBlockFilter acceptAll rejectAll "" "(" =
      (none, some (.wrapError ("exclude filter: " ++ (GoError.plain "syntax error").Error)
        (.plain "syntax error"))) ∧
    NewBlockFilter acceptAll acceptAll "" "" =
      (some { IncludeProgram := noopExclude, ExcludeProgram := noopExclude }, none) :=
  ⟨rfl, rfl,
    ((C13_NewBlockFilter_outcomes rejectAll acceptAll "action name equals (" "").1
      (.plain "syntax error") rfl).1,
    ((C13_NewBlockFilter_outcomes acceptAll rejectAll "" "(").2.1
      noopExclude (.plain "syntax error") rfl rfl).1,
    (C13_NewBlockFilter_outcomes acceptAll acceptAll "" "").2.2.1
      noopExclude noopExclude rfl rfl⟩

/-! ## C14: applying the transform twice -/

theorem transfromInPlace_twice (f : BlockFilter) (block : Block) :
    transfromInPlace f (transfromInPlace f block) =
      { UnfilteredTransactionTraces := [],
        FilteredTransactionTraces := [],
        FilteringApplied := true,
        FilteringIncludeFilterExpr := f.IncludeProgram.code,
        FilteringExcludeFilterExpr := f.ExcludeProgram.code,
        FilteredTransactionTraceCount := 0,
        FilteredExecutedInputActionCount := 0,
        FilteredExecutedTotalActionCount := 0 } := rfl

/-- C14: when the filter is not both-no-op and the handle decodes to `block`, a
first `TransformInPlace` leaves the native block `transfromInPlace f block`, and
a second `TransformInPlace` on the resulting handle returns a nil error and
leaves a native block with an empty retained sequence, an empty pre-filter
sequence, `FilteredTransactionTraceCount = 0`,
`FilteredExecutedTotalActionCount = 0` and
`FilteredExecutedInputActionCount = 0`.  When the first application retains at
least one transaction the second result differs from the first: the transform
is not idempotent there. -/
theorem C14_second_application_discards_everything (f : BlockFilter) (blk : BstreamBlock)
    (block : Block) (hnative : blk.native = .eosBlock block)
    (hnoop : ¬ (f.IncludeProgram.IsNoop = true ∧ f.ExcludeProgram.IsNoop = true)) :
    TransformInPlace f blk =
      .returned none
        { native := .eosBlock (transfromInPlace f block),
          toNativeCalls := blk.toNativeCalls + 1 } ∧
    TransformInPlace f
        { native := .eosBlock (transfromInPlace f block),
          toNativeCalls := blk.toNativeCalls + 1 } =
      .returned none
        { native := .eosBlock (transfromInPlace f (transfromInPlace f block)),
          toNativeCalls := blk.toNativeCalls + 1 + 1 } ∧
    (transfromInPlace f (transfromInPlace f block)).FilteredTransactionTraces = [] ∧
    (transfromInPlace f (transfromInPlace f block)).UnfilteredTransactionTraces = [] ∧
    (transfromInPlace f (transfromInPlace f block)).FilteredTransactionTraceCount = 0 ∧
    (transfromInPlace f (transfromInPlace f block)).FilteredExecutedTotalActionCount = 0 ∧
    (transfromInPlace f (transfromInPlace f block)).FilteredExecutedInputActionCount = 0 ∧
    (retainedPositions f block ≠ [] →
      transfromInPlace f (transfromInPlace f block) ≠ transfromInPlace f block) := by
  refine ⟨TransformInPlace_of_not_noop f blk block hnative hnoop,
    TransformInPlace_of_not_noop f _ _ rfl hnoop, rfl, rfl, rfl, rfl, rfl, ?_⟩
  intro hne heq
  have hlen := (filtered_length f block).1
  have hnil : (transfromInPlace f block).FilteredTransactionTraces = [] := by
    rw [← heq, transfromInPlace_twice]
  rw [hnil] at hlen
  exact hne (List.length_eq_zero.1 hlen.symm)

/-- C14, applied to `blockWithFailed` and `scheduledFilter`, whose first
application retains one transaction. -/
theorem C14_second_application_discards_everything_witness :
    handleWithFailed.native = .eosBlock blockWithFailed ∧
    ¬ (scheduledFilter.IncludeProgram.IsNoop = true ∧
        scheduledFilter.ExcludeProgram.IsNoop = true) ∧
    retainedPositions scheduledFilter blockWithFailed ≠ [] ∧
    transfromInPlace scheduledFilter (transfromInPlace scheduledFilter blockWithFailed) ≠
      transfromInPlace scheduledFilter blockWithFailed :=
  ⟨rfl, by decide, by decide,
    (C14_second_application_discards_everything scheduledFilter handleWithFailed
      blockWithFailed rfl (by decide)).2.2.2.2.2.2.2 (by decide)⟩

/-! ## C15: flags that are already set -/

theorem countP_le_matched_markIf (p : ActionTrace → Bool) (acts : List ActionTrace) :
    acts.countP p ≤ (acts.map (markIf p)).countP (fun a => a.FilteringMatched) := by
  induction acts with
  | nil => exact Nat.le_refl _
  | cons a rest ih =>
    simp only [List.map_cons, List.countP_cons]
    by_cases hp : p a = true
    · simp only [markIf, hp, if_true]
      omega
    · simp only [hp, Bool.false_eq_true, if_false]
      omega

theorem countP_lt_matched_markIf (p : ActionTrace → Bool) (acts : List ActionTrace)
    (a : ActionTrace) (ha : a ∈ acts) (hm : a.FilteringMatched = true) (hp : p a = false) :
    acts.countP p < (acts.map (markIf p)).countP (fun a => a.FilteringMatched) := by
  induction acts with
  | nil => simp at ha
  | cons b rest ih =>
    simp only [List.map_cons, List.countP_cons]
    rcases List.mem_cons.1 ha with hab | hin
    · subst hab
      have hle := countP_le_matched_markIf p rest
      simp only [markIf, hp, Bool.false_eq_true, if_false, hm, if_true]
      omega
    · have hlt := ih hin
      by_cases hq : p b = true
      · simp only [markIf, hq, if_true]
        omega
      · simp only [hq, Bool.false_eq_true, if_false]
        omega

theorem sum_directCount_le_matched (f : BlockFilter) (l : List TransactionTrace) :
    (l.map (directCount f)).sum ≤ matchedDirectCount (l.map (markTrx f)) := by
  induction l with
  | nil => exact Nat.le_refl _
  | cons t rest ih =>
    have ht := countP_le_matched_markIf (shouldProcess f t) t.ActionTraces
    simp only [matchedDirectCount] at ih ⊢
    simp only [List.map_cons, List.sum_cons, markTrx, TransactionTrace.ActionTraces_mk,
      directCount]
    omega

theorem sum_directCount_lt_matched (f : BlockFilter) (l : List TransactionTrace)
    (t : TransactionTrace) (a : ActionTrace) (ht : t ∈ l) (ha : a ∈ t.ActionTraces)
    (hm : a.FilteringMatched = true) (hp : shouldProcess f t a = false) :
    (l.map (directCount f)).sum < matchedDirectCount (l.map (markTrx f)) := by
  induction l with
  | nil => simp at ht
  | cons s rest ih =>
    have hs := countP_le_matched_markIf (shouldProcess f s) s.ActionTraces
    have hrest := sum_directCount_le_matched f rest
    rcases List.mem_cons.1 ht with hts | hin
    · subst hts
      have hlt := countP_lt_matched_markIf (shouldProcess f t) t.ActionTraces a ha hm hp
      simp only [matchedDirectCount] at hrest ⊢
      simp only [List.map_cons, List.sum_cons, markTrx, TransactionTrace.ActionTraces_mk,
        directCount]
      omega
    · have hlt := ih hin
      simp only [matchedDirectCount] at hlt ⊢
      simp only [List.map_cons, List.sum_cons, markTrx, TransactionTrace.ActionTraces_mk,
        directCount]
      omega

theorem uint32_le (n : Nat) : uint32 n ≤ n := Nat.mod_le _ _

/-- C15: the transform never clears a flag.  For every block, whatever the
flags at the start, the transaction trace at each position keeps its
`Scheduled` flag and each of its direct actions is the original action `a0`
with `FilteringMatched` equal to `a0.FilteringMatched` or the combined decision
on `{a0, T.Scheduled}`.  Hence, if some direct action of the block is already
marked and does not pass, `FilteredExecutedTotalActionCount` is strictly less
than the number of direct actions with `FilteringMatched` set, counted over all
transaction traces of the block; it is also strictly less than that number
counted over the retained transactions alone when the transaction of that
action is retained. -/
theorem C15_flags_are_never_cleared (f : BlockFilter) (block : Block) :
    List.Forall₂
      (fun T t => t.Scheduled = T.Scheduled ∧
        List.Forall₂
          (fun a0 a =>
            a.FilteringMatched =
              (a0.FilteringMatched || combinedDecision f a0 T.Scheduled) ∧
            a = { a0 with FilteringMatched :=
                    a0.FilteringMatched || combinedDecision f a0 T.Scheduled })
          T.ActionTraces t.ActionTraces)
      block.UnfilteredTransactionTraces (walkedTraces f block) ∧
    (∀ T ∈ block.UnfilteredTransactionTraces, ∀ a ∈ T.ActionTraces,
      a.FilteringMatched = true → combinedDecision f a T.Scheduled = false →
      (transfromInPlace f block).FilteredExecutedTotalActionCount <
          matchedDirectCount (walkedTraces f block) ∧
      (retains f T = true →
        (transfromInPlace f block).FilteredExecutedTotalActionCount <
          matchedDirectCount (transfromInPlace f block).FilteredTransactionTraces)) := by
  constructor
  · rw [walkedTraces_eq]
    refine forall₂_map_of _ _ _ ?_
    intro T _
    refine ⟨rfl, ?_⟩
    simp only [markTrx, TransactionTrace.ActionTraces_mk]
    refine forall₂_map_of _ _ _ ?_
    intro a _
    exact markIf_shouldProcess_matched f T a
  · intro T hT a ha hm hdec
    have hp : shouldProcess f T a = false := by
      rw [shouldProcess_eq_combinedDecision]
      exact hdec
    have htotal := transfromInPlace_total f block
    constructor
    · have hlt := sum_directCount_lt_matched f _ T a hT ha hm hp
      have hle := uint32_le ((block.UnfilteredTransactionTraces.map (directCount f)).sum)
      rw [walkedTraces_eq, htotal]
      omega
    · intro hret
      have hmem : T ∈ block.UnfilteredTransactionTraces.filter (retains f) :=
        List.mem_filter.2 ⟨hT, hret⟩
      have hlt := sum_directCount_lt_matched f _ T a hmem ha hm hp
      have hsum := (sum_directCount_filter_retains f block.UnfilteredTransactionTraces).1
      have hle := uint32_le ((block.UnfilteredTransactionTraces.map (directCount f)).sum)
      rw [transfromInPlace_filtered, htotal]
      omega

/-- C15, applied to a block whose only direct action is already marked, with the
filter `scheduledFilter`, which that action does not pass: the counter is 0 and
one direct action is marked. -/
theorem C15_flags_are_never_cleared_witness :
    (.mk [{ transferAction with FilteringMatched := true }] none false : TransactionTrace) ∈
      premarkedBlock.UnfilteredTransactionTraces ∧
    combinedDecision scheduledFilter { transferAction with FilteringMatched := true } false
      = false ∧
    (transfromInPlace scheduledFilter premarkedBlock).FilteredExecutedTotalActionCount <
      matchedDirectCount (walkedTraces scheduledFilter premarkedBlock) :=
  have hmem : (.mk [{ transferAction with FilteringMatched := true }] none false :
      TransactionTrace) ∈ premarkedBlock.UnfilteredTransactionTraces :=
    List.mem_singleton.2 rfl
  ⟨hmem, rfl,
    ((C15_flags_are_never_cleared scheduledFilter premarkedBlock).2 _ hmem
      { transferAction with FilteringMatched := true } (List.mem_singleton.2 rfl)
      rfl rfl).1⟩

/-! ## C16: bounds on the counters -/

theorem directCount_le_length (f : BlockFilter) (l : List TransactionTrace) :
    (l.map (directCount f)).sum ≤ (l.map (fun t => t.ActionTraces.length)).sum := by
  induction l with
  | nil => exact Nat.le_refl _
  | cons t rest ih =>
    have ht : directCount f t ≤ t.ActionTraces.length := List.countP_le_length _
    simp only [List.map_cons, List.sum_cons]
    omega

theorem length_sum_filter_le (q : TransactionTrace → Bool) (l : List TransactionTrace) :
    ((l.filter q).map (fun t => t.ActionTraces.length)).sum ≤
      (l.map (fun t => t.ActionTraces.length)).sum := by
  induction l with
  | nil => exact Nat.le_refl _
  | cons t rest ih =>
    by_cases hq : q t = true
    · simp only [List.filter_cons, hq, if_true, List.map_cons, List.sum_cons]
      omega
    · simp only [List.filter_cons, hq, Bool.false_eq_true, if_false, List.map_cons,
        List.sum_cons]
      omega

/-- C16: for a block with fewer than `2^32` direct actions, after the transform
`FilteredExecutedInputActionCount` is at most
`FilteredExecutedTotalActionCount`, which is at most the number of direct
actions of the retained transactions; and `FilteredTransactionTraceCount` is at
most the number of transactions of the original sequence. -/
theorem C16_counter_bounds (f : BlockFilter) (block : Block)
    (hsmall : (block.UnfilteredTransactionTraces.map
      (fun t => t.ActionTraces.length)).sum < 2 ^ 32) :
    (transfromInPlace f block).FilteredExecutedInputActionCount ≤
      (transfromInPlace f block).FilteredExecutedTotalActionCount ∧
    (transfromInPlace f block).FilteredExecutedTotalActionCount ≤
      ((transfromInPlace f block).FilteredTransactionTraces.map
        (fun t => t.ActionTraces.length)).sum ∧
    (transfromInPlace f block).FilteredTransactionTraceCount ≤
      block.UnfilteredTransactionTraces.length := by
  have hin := directInputCount_le f block.UnfilteredTransactionTraces
  have hlen := directCount_le_length f block.UnfilteredTransactionTraces
  have htot : (transfromInPlace f block).FilteredExecutedTotalActionCount =
      (block.UnfilteredTransactionTraces.map (directCount f)).sum := by
    rw [transfromInPlace_total]
    exact uint32_of_lt (by omega)
  have hinp : (transfromInPlace f block).FilteredExecutedInputActionCount =
      (block.UnfilteredTransactionTraces.map (directInputCount f)).sum := by
    rw [transfromInPlace_input]
    exact uint32_of_lt (by omega)
  refine ⟨by omega, ?_, ?_⟩
  · have hsum := (sum_directCount_filter_retains f block.UnfilteredTransactionTraces).1
    have hle := directCount_le_length f (block.UnfilteredTransactionTraces.filter (retains f))
    have hmap : ((transfromInPlace f block).FilteredTransactionTraces.map
        (fun t => t.ActionTraces.length)).sum =
        ((block.UnfilteredTransactionTraces.filter (retains f)).map
          (fun t => t.ActionTraces.length)).sum := by
      rw [transfromInPlace_filtered, List.map_map]
      refine congrArg List.sum (List.map_congr_left ?_)
      intro t _
      simp [markTrx]
    omega
  · have hcount : (transfromInPlace f block).FilteredTransactionTraceCount =
        uint32 (transfromInPlace f block).FilteredTransactionTraces.length := rfl
    have h1 := uint32_le (transfromInPlace f block).FilteredTransactionTraces.length
    have h2 := (filtered_length f block).2
    omega

/-- C16, applied to the example block of the spec. -/
theorem C16_counter_bounds_witness :
    ((exampleBlock true).UnfilteredTransactionTraces.map
      (fun t => t.ActionTraces.length)).sum < 2 ^ 32 ∧
    (transfromInPlace exampleFilter (exampleBlock true)).FilteredExecutedInputActionCount ≤
      (transfromInPlace exampleFilter (exampleBlock true)).FilteredExecutedTotalActionCount ∧
    (transfromInPlace exampleFilter (exampleBlock true)).FilteredExecutedTotalActionCount ≤
      ((transfromInPlace exampleFilter (exampleBlock true)).FilteredTransactionTraces.map
        (fun t => t.ActionTraces.length)).sum ∧
    (transfromInPlace exampleFilter (exampleBlock true)).FilteredTransactionTraceCount ≤
      (exampleBlock true).UnfilteredTransactionTraces.length :=
  ⟨by decide, C16_counter_bounds exampleFilter (exampleBlock true) (by decide)⟩

/-! ## C17: `TransformInPlace` returns a nil error -/

/-- C17: for every filter and every handle whose native form is a decoded
block, `TransformInPlace` returns, and the error it returns is nil: on the fast
path (both programs no-ops) the handle is left as it was, otherwise the native
block is rewritten by `transfromInPlace`. -/
theorem C17_TransformInPlace_returns_nil (f : BlockFilter) (blk : BstreamBlock)
    (block : Block) (hnative : blk.native = .eosBlock block) :
    (∃ blk1, TransformInPlace f blk = .returned none blk1) ∧
    ((f.IncludeProgram.IsNoop = true ∧ f.ExcludeProgram.IsNoop = true) →
      TransformInPlace f blk = .returned none blk) ∧
    (¬ (f.IncludeProgram.IsNoop = true ∧ f.ExcludeProgram.IsNoop = true) →
      TransformInPlace f blk =
        .returned none
          { native := .eosBlock (transfromInPlace f block),
            toNativeCalls := blk.toNativeCalls + 1 }) := by
  have hfast : (f.IncludeProgram.IsNoop = true ∧ f.ExcludeProgram.IsNoop = true) →
      TransformInPlace f blk = .returned none blk := by
    intro h
    simp [TransformInPlace, h.1, h.2]
  have hfull := TransformInPlace_of_not_noop f blk block hnative
  refine ⟨?_, hfast, hfull⟩
  by_cases h : f.IncludeProgram.IsNoop = true ∧ f.ExcludeProgram.IsNoop = true
  · exact ⟨_, hfast h⟩
  · exact ⟨_, hfull h⟩

/-- C17, applied to the no-op filter (fast path) on `handleWithFailed`. -/
theorem C17_TransformInPlace_returns_nil_witness :
    handleWithFailed.native = .eosBlock blockWithFailed ∧
    (∃ blk1, TransformInPlace noopFilter handleWithFailed = .returned none blk1) ∧
    (∃ blk1, TransformInPlace scheduledFilter handleWithFailed = .returned none blk1) :=
  ⟨rfl,
    (C17_TransformInPlace_returns_nil noopFilter handleWithFailed blockWithFailed rfl).1,
    (C17_TransformInPlace_returns_nil scheduledFilter handleWithFailed blockWithFailed rfl).1⟩

end Filtering
